import Mathlib

/-!
Verification of the robust-grading persistence model.

Shallow embedding of `lms/djangoapps/grades/models.py`:

* `BlockRecord` — the namedtuple `('locator', 'weight', 'max_score')`.
* `BlockRecordSet` values are modelled by their enumeration: a Python
  `frozenset` deduplicates by value but iterates in an unspecified order,
  so a set value is represented by a `List BlockRecord` giving one
  possible iteration order (duplicate-free lists with the same members
  describe the same set value).
* `toJson` / `toHash` — `BlockRecordSet.to_json` / `to_hash`, including a
  faithful model of `json.dumps(..., separators=(',', ':'), sort_keys=True)`
  (ASCII output with `\uXXXX` escapes), `hashlib.sha256` and
  `base64.b64encode` (the latter two are external libraries, modelled from
  their documented behaviour).
* A small state machine for the Django ORM layer: the `VisibleBlocks`
  content-addressed store and the `PersistentSubsectionGrade`
  create / update / save_grade operations, with an explicit race oracle
  standing for a concurrent writer committing the same `VisibleBlocks`
  row between this transaction's read and its insert (the situation in
  which Django raises `IntegrityError` out of `get_or_create` under
  repeatable-read isolation).

Python floats are modelled by `PyFloat`: exact decimal values in canonical
form (no trailing zero in the fractional scale).  `repr` of a float is its
shortest round-tripping decimal, so from the codec's point of view a float
is exactly an abstract decimal with a unique rendering; float arithmetic
never occurs in this code.
-/

/-- A Python float as the grading codec observes it: a value `m / 10 ^ e`
in canonical form (`e = 0`, or the mantissa is not divisible by 10), which
is exactly the information content of `repr(float)`'s shortest decimal. -/
def PyFloat : Type := { p : Int × Nat // p.2 = 0 ∨ p.1 % 10 ≠ 0 }

instance : DecidableEq PyFloat := fun a b =>
  decidable_of_iff (a.val = b.val) Subtype.ext_iff.symm

/-- Mantissa of a `PyFloat`. -/
def PyFloat.m (f : PyFloat) : Int := f.val.1

/-- Decimal scale of a `PyFloat` (the value is `m / 10 ^ e`). -/
def PyFloat.e (f : PyFloat) : Nat := f.val.2

/-- Decimal digits, fueled for structural recursion (the fuel in
`natDigits` always suffices, since a number has at most `n + 1` digits). -/
def natDigitsAux : Nat → Nat → List Char → List Char
  | 0, _, acc => acc
  | fuel + 1, n, acc =>
    if n < 10 then Nat.digitChar n :: acc
    else natDigitsAux fuel (n / 10) (Nat.digitChar (n % 10) :: acc)

/-- Decimal digits of a natural number, most significant first
(`Nat.digitChar` maps `0`–`9` to `'0'`–`'9'`). -/
def natDigits (n : Nat) : List Char :=
  natDigitsAux (n + 1) n []

/-- Exactly `k` decimal digits of `n` (most significant first), left-padded
with `'0'`; used for the fractional part of a decimal rendering. -/
def natDigitsPad : Nat → Nat → List Char
  | 0, _ => []
  | k + 1, n => natDigitsPad k (n / 10) ++ [Nat.digitChar (n % 10)]

/-- Rendering of a `PyFloat` as Python's `repr`/`json.dumps` renders the
corresponding float: sign, integer part, `'.'`, fractional digits (`"2.0"`,
`"-0.05"`, `"2.5"`, ...). -/
def pyFloatDigits (f : PyFloat) : List Char :=
  let n := f.m.natAbs
  let sign : List Char := if f.m < 0 then ['-'] else []
  if f.e = 0 then sign ++ natDigits n ++ ['.', '0']
  else sign ++ natDigits (n / 10 ^ f.e) ++ '.' :: natDigitsPad f.e (n % 10 ^ f.e)

/-- `BlockRecord = namedtuple('BlockRecord', ['locator', 'weight', 'max_score'])`. -/
structure BlockRecord where
  locator : String
  weight : PyFloat
  max_score : PyFloat
deriving DecidableEq

/-- Four lowercase hex digits of `n`, as Python's `'\u%04x'` formats them. -/
def hex4 (n : Nat) : List Char :=
  [Nat.digitChar (n / 4096 % 16), Nat.digitChar (n / 256 % 16),
   Nat.digitChar (n / 16 % 16), Nat.digitChar (n % 16)]

/-- Escape of one character inside a JSON string literal, as
`json.dumps` with its default `ensure_ascii=True` performs it: `"` and `\`
get two-character escapes, printable ASCII passes through, the five
C-style control escapes are used where they exist, every other character
becomes `\uXXXX` (with a surrogate pair above `U+FFFF`). -/
def escapeChar (c : Char) : List Char :=
  if c = '"' then ['\\', '"']
  else if c = '\\' then ['\\', '\\']
  else if 0x20 ≤ c.toNat ∧ c.toNat ≤ 0x7e then [c]
  else if c = '\x08' then ['\\', 'b']
  else if c = '\x09' then ['\\', 't']
  else if c = '\x0a' then ['\\', 'n']
  else if c = '\x0c' then ['\\', 'f']
  else if c = '\x0d' then ['\\', 'r']
  else if c.toNat < 0x10000 then '\\' :: 'u' :: hex4 c.toNat
  else
    ('\\' :: 'u' :: hex4 (0xD800 + (c.toNat - 0x10000) / 0x400)) ++
    ('\\' :: 'u' :: hex4 (0xDC00 + (c.toNat - 0x10000) % 0x400))

/-- Escape of a whole string body (concatenation of `escapeChar`). -/
def escapeList : List Char → List Char
  | [] => []
  | c :: cs => escapeChar c ++ escapeList cs

/-- `json.dumps(block._asdict(), separators=(',', ':'), sort_keys=True)`:
object keys in sorted order `locator < max_score < weight`, no spaces. -/
def renderRecord (r : BlockRecord) : List Char :=
  '{' :: ("\"locator\":\"".data ++ escapeList r.locator.data ++
  "\",\"max_score\":".data ++ pyFloatDigits r.max_score ++
  ",\"weight\":".data ++ pyFloatDigits r.weight) ++ ['}']

/-- Comma-separated record objects (the body of the JSON array). -/
def renderRecordsSep : List BlockRecord → List Char
  | [] => []
  | [r] => renderRecord r
  | r :: rs => renderRecord r ++ ',' :: renderRecordsSep rs

/-- The JSON array of serialized records. -/
def renderRecords (l : List BlockRecord) : List Char :=
  '[' :: (renderRecordsSep l ++ [']'])

/-- Lexicographic comparison of strings by code point — the order Python's
`<`/`sorted` uses on the (ASCII) locator strings. -/
def charListLe : List Char → List Char → Bool
  | [], _ => true
  | _ :: _, [] => false
  | a :: as, b :: bs =>
    if a.toNat < b.toNat then true
    else if b.toNat < a.toNat then false
    else charListLe as bs

/-- The comparison key of `sorted(self, key=attrgetter('locator'))`. -/
def locLe (a b : BlockRecord) : Prop :=
  charListLe a.locator.data b.locator.data = true

instance : DecidableRel locLe := fun a b =>
  inferInstanceAs (Decidable (charListLe a.locator.data b.locator.data = true))

/-- Python's `sorted` is a stable sort; `List.insertionSort` with a total
preorder is stable, and places tied-key elements in input order, exactly
as `sorted(self, key=attrgetter('locator'))` does. -/
def sortLoc (l : List BlockRecord) : List BlockRecord :=
  List.insertionSort locLe l

/-- `BlockRecordSet.to_json`, applied to one enumeration of the set:
serialize the records sorted by locator, compact separators, sorted keys. -/
def toJson (l : List BlockRecord) : String :=
  String.mk (renderRecords (sortLoc l))


/-- UTF-8 encoding of one character.  `to_json` output is pure ASCII
(`ensure_ascii` is `json.dumps`'s default), so on the strings actually
hashed this is the identity on code points, but the general encoder is
the faithful model of Python str bytes. -/
def utf8Char (c : Char) : List Nat :=
  let n := c.toNat
  if n < 0x80 then [n]
  else if n < 0x800 then [0xc0 + n / 0x40, 0x80 + n % 0x40]
  else if n < 0x10000 then
    [0xe0 + n / 0x1000, 0x80 + n / 0x40 % 0x40, 0x80 + n % 0x40]
  else
    [0xf0 + n / 0x40000, 0x80 + n / 0x1000 % 0x40, 0x80 + n / 0x40 % 0x40,
     0x80 + n % 0x40]

/-- UTF-8 bytes of a character list. -/
def utf8Bytes : List Char → List Nat
  | [] => []
  | c :: cs => utf8Char c ++ utf8Bytes cs

/-! ## SHA-256 (model of `hashlib.sha256`, FIPS 180-4) -/

/-- Truncation to a 32-bit word. -/
def w32 (n : Nat) : Nat := n % 4294967296

/-- Right rotation of a 32-bit word by `k`. -/
def rotr32 (k n : Nat) : Nat := w32 (n / 2 ^ k + n % 2 ^ k * 2 ^ (32 - k))

/-- SHA-256 message-schedule sigma-0. -/
def smallSigma0 (x : Nat) : Nat :=
  Nat.xor (Nat.xor (rotr32 7 x) (rotr32 18 x)) (x / 2 ^ 3)

/-- SHA-256 message-schedule sigma-1. -/
def smallSigma1 (x : Nat) : Nat :=
  Nat.xor (Nat.xor (rotr32 17 x) (rotr32 19 x)) (x / 2 ^ 10)

/-- SHA-256 round Sigma-0. -/
def bigSigma0 (x : Nat) : Nat :=
  Nat.xor (Nat.xor (rotr32 2 x) (rotr32 13 x)) (rotr32 22 x)

/-- SHA-256 round Sigma-1. -/
def bigSigma1 (x : Nat) : Nat :=
  Nat.xor (Nat.xor (rotr32 6 x) (rotr32 11 x)) (rotr32 25 x)

/-- SHA-256 choice function. -/
def chFn (x y z : Nat) : Nat :=
  Nat.xor (Nat.land x y) (Nat.land (4294967295 - x) z)

/-- SHA-256 majority function. -/
def majFn (x y z : Nat) : Nat :=
  Nat.xor (Nat.xor (Nat.land x y) (Nat.land x z)) (Nat.land y z)

/-- The 64 SHA-256 round constants. -/
def sha256K : List Nat :=
  [1116352408, 1899447441, 3049323471, 3921009573, 961987163, 1508970993,
   2453635748, 2870763221, 3624381080, 310598401, 607225278, 1426881987,
   1925078388, 2162078206, 2614888103, 3248222580, 3835390401, 4022224774,
   264347078, 604807628, 770255983, 1249150122, 1555081692, 1996064986,
   2554220882, 2821834349, 2952996808, 3210313671, 3336571891, 3584528711,
   113926993, 338241895, 666307205, 773529912, 1294757372, 1396182291,
   1695183700, 1986661051, 2177026350, 2456956037, 2730485921, 2820302411,
   3259730800, 3345764771, 3516065817, 3600352804, 4094571909, 275423344,
   430227734, 506948616, 659060556, 883997877, 958139571, 1322822218,
   1537002063, 1747873779, 1955562222, 2024104815, 2227730452, 2361852424,
   2428436474, 2756734187, 3204031479, 3329325298]

/-- Working state of the compression function. -/
structure Sha256State where
  a : Nat
  b : Nat
  c : Nat
  d : Nat
  e : Nat
  f : Nat
  g : Nat
  h : Nat

/-- Extend a 16-word block by `k` further schedule words. -/
def extendSchedule : Nat → List Nat → List Nat
  | 0, ws => ws
  | k + 1, ws =>
    let t := ws.length
    let w := w32 (smallSigma1 (ws.getD (t - 2) 0) + ws.getD (t - 7) 0 +
                  smallSigma0 (ws.getD (t - 15) 0) + ws.getD (t - 16) 0)
    extendSchedule k (ws ++ [w])

/-- One SHA-256 round, taking the pair (round constant, schedule word). -/
def sha256Round (st : Sha256State) (kw : Nat × Nat) : Sha256State :=
  let t1 := w32 (st.h + bigSigma1 st.e + chFn st.e st.f st.g + kw.1 + kw.2)
  let t2 := w32 (bigSigma0 st.a + majFn st.a st.b st.c)
  ⟨w32 (t1 + t2), st.a, st.b, st.c, w32 (st.d + t1), st.e, st.f, st.g⟩

/-- Compression of one 16-word block into the chaining state. -/
def sha256Block (hs : Sha256State) (block : List Nat) : Sha256State :=
  let ws := extendSchedule 48 block
  let st := (sha256K.zip ws).foldl sha256Round hs
  ⟨w32 (hs.a + st.a), w32 (hs.b + st.b), w32 (hs.c + st.c), w32 (hs.d + st.d),
   w32 (hs.e + st.e), w32 (hs.f + st.f), w32 (hs.g + st.g), w32 (hs.h + st.h)⟩

/-- Big-endian 32-bit words from a byte list. -/
def bytesToWords : List Nat → List Nat
  | b0 :: b1 :: b2 :: b3 :: rest =>
    (((b0 * 256 + b1) * 256 + b2) * 256 + b3) :: bytesToWords rest
  | _ => []

/-- 64-byte chunking, fueled for structural recursion (each step strips
at least one byte, so `length` fuel always suffices). -/
def chunkBlocksAux : Nat → List Nat → List (List Nat)
  | 0, _ => []
  | fuel + 1, bs =>
    if bs.isEmpty then [] else bs.take 64 :: chunkBlocksAux fuel (bs.drop 64)

/-- 64-byte chunks of the padded message. -/
def chunkBlocks (bs : List Nat) : List (List Nat) :=
  chunkBlocksAux bs.length bs

/-- The bit length of the message as 8 big-endian bytes. -/
def lengthBytes (n : Nat) : List Nat :=
  [n / 2 ^ 56 % 256, n / 2 ^ 48 % 256, n / 2 ^ 40 % 256, n / 2 ^ 32 % 256,
   n / 2 ^ 24 % 256, n / 2 ^ 16 % 256, n / 2 ^ 8 % 256, n % 256]

/-- SHA-256 padding: `0x80`, zeros to 56 mod 64, 8-byte bit length. -/
def sha256Pad (msg : List Nat) : List Nat :=
  msg ++ 0x80 :: (List.replicate ((119 - msg.length % 64) % 64) 0 ++
    lengthBytes (8 * msg.length))

/-- The SHA-256 initial chaining state. -/
def sha256Init : Sha256State :=
  ⟨1779033703, 3144134277, 1013904242, 2773480762,
   1359893119, 2600822924, 528734635, 1541459225⟩

/-- Big-endian bytes of one 32-bit word. -/
def wordBytes (w : Nat) : List Nat :=
  [w / 16777216 % 256, w / 65536 % 256, w / 256 % 256, w % 256]

/-- `hashlib.sha256(msg).digest()`: the raw 32-byte digest. -/
def sha256Bytes (msg : List Nat) : List Nat :=
  let hs := ((chunkBlocks (sha256Pad msg)).map bytesToWords).foldl sha256Block sha256Init
  wordBytes hs.a ++ wordBytes hs.b ++ wordBytes hs.c ++ wordBytes hs.d ++
  wordBytes hs.e ++ wordBytes hs.f ++ wordBytes hs.g ++ wordBytes hs.h

/-! ## base64 (model of `base64.b64encode`, RFC 4648 standard alphabet) -/

/-- The standard base64 alphabet. -/
def b64Table : List Char :=
  "ABCDEFGHIJKLMNOPQRSTUVWXYZabcdefghijklmnopqrstuvwxyz0123456789+/".data

/-- The base64 character of a 6-bit group. -/
def b64Char (i : Nat) : Char := b64Table.getD i 'A'

/-- `base64.b64encode`: 3-byte groups to 4 characters, `=`-padded, and no
line wrapping (`b64encode` never wraps). -/
def b64Encode : List Nat → List Char
  | [] => []
  | [a] => [b64Char (a / 4), b64Char (a % 4 * 16), '=', '=']
  | [a, b] => [b64Char (a / 4), b64Char (a % 4 * 16 + b / 16), b64Char (b % 16 * 4), '=']
  | a :: b :: c :: rest =>
    b64Char (a / 4) :: b64Char (a % 4 * 16 + b / 16) :: b64Char (b % 16 * 4 + c / 64) ::
    b64Char (c % 64) :: b64Encode rest

/-- `BlockRecordSet.to_hash`, applied to one enumeration of the set:
`b64encode(sha256(self.to_json()).digest())`. -/
def toHash (l : List BlockRecord) : String :=
  String.mk (b64Encode (sha256Bytes (utf8Bytes (toJson l).data)))

/-! ## Visibility Set construction and canonicalization (claim C1) -/

/-- `l` is one possible enumeration of `frozenset(L)`: `frozenset`
deduplicates by value, and its iteration order is unspecified, so any
duplicate-free list with the same members is a legitimate enumeration. -/
abbrev isEnumOf (l L : List BlockRecord) : Prop :=
  l.Nodup ∧ (∀ x ∈ l, x ∈ L) ∧ ∀ x ∈ L, x ∈ l

/-- Head characterization of the lexicographic comparison. -/
theorem charListLe_cons_iff (a b : Char) (as bs : List Char) :
    charListLe (a :: as) (b :: bs) = true ↔
      a.toNat < b.toNat ∨ (a.toNat = b.toNat ∧ charListLe as bs = true) := by
  simp only [charListLe]
  by_cases h1 : a.toNat < b.toNat
  · simp [h1]
  · by_cases h2 : b.toNat < a.toNat
    · simp [h1, h2]
      omega
    · have h3 : a.toNat = b.toNat := by omega
      simp [h1, h2, h3]

/-- The lexicographic comparison is total. -/
theorem charListLe_total :
    ∀ x y : List Char, charListLe x y = true ∨ charListLe y x = true := by
  intro x
  induction x with
  | nil => intro y; left; rfl
  | cons a as ih =>
    intro y
    cases y with
    | nil => right; rfl
    | cons b bs =>
      rcases Nat.lt_trichotomy a.toNat b.toNat with h | h | h
      · left; exact (charListLe_cons_iff a b as bs).mpr (Or.inl h)
      · cases ih bs with
        | inl hr => left; exact (charListLe_cons_iff a b as bs).mpr (Or.inr ⟨h, hr⟩)
        | inr hr => right; exact (charListLe_cons_iff b a bs as).mpr (Or.inr ⟨h.symm, hr⟩)
      · right; exact (charListLe_cons_iff b a bs as).mpr (Or.inl h)

/-- The lexicographic comparison is transitive. -/
theorem charListLe_trans :
    ∀ x y z : List Char, charListLe x y = true → charListLe y z = true →
      charListLe x z = true := by
  intro x
  induction x with
  | nil => intro y z _ _; rfl
  | cons a as ih =>
    intro y z hxy hyz
    cases y with
    | nil => simp [charListLe] at hxy
    | cons b bs =>
      cases z with
      | nil => simp [charListLe] at hyz
      | cons c cs =>
        rcases (charListLe_cons_iff a b as bs).mp hxy with h1 | ⟨h1, r1⟩ <;>
          rcases (charListLe_cons_iff b c bs cs).mp hyz with h2 | ⟨h2, r2⟩
        · exact (charListLe_cons_iff a c as cs).mpr (Or.inl (by omega))
        · exact (charListLe_cons_iff a c as cs).mpr (Or.inl (by omega))
        · exact (charListLe_cons_iff a c as cs).mpr (Or.inl (by omega))
        · exact (charListLe_cons_iff a c as cs).mpr
            (Or.inr ⟨by omega, ih bs cs r1 r2⟩)

/-- The lexicographic comparison is antisymmetric. -/
theorem charListLe_antisymm :
    ∀ x y : List Char, charListLe x y = true → charListLe y x = true → x = y := by
  intro x
  induction x with
  | nil =>
    intro y _ hyx
    cases y with
    | nil => rfl
    | cons b bs => simp [charListLe] at hyx
  | cons a as ih =>
    intro y hxy hyx
    cases y with
    | nil => simp [charListLe] at hxy
    | cons b bs =>
      rcases (charListLe_cons_iff a b as bs).mp hxy with h1 | ⟨h1, r1⟩ <;>
        rcases (charListLe_cons_iff b a bs as).mp hyx with h2 | ⟨h2, r2⟩
      · omega
      · omega
      · omega
      · have hab : a = b := Char.eq_of_val_eq (UInt32.toNat.inj h1)
        rw [hab, ih bs r1 r2]

instance : IsTotal BlockRecord locLe :=
  ⟨fun a b => charListLe_total a.locator.data b.locator.data⟩

instance : IsTrans BlockRecord locLe :=
  ⟨fun _ _ _ h1 h2 => charListLe_trans _ _ _ h1 h2⟩

/-- A list sorted by locator is determined by its multiset of members as
soon as no two distinct members share a locator: this is the precise
condition under which `sorted(..., key=attrgetter('locator'))` has a
unique possible output. -/
theorem sorted_eq_of_perm_of_locator_inj :
    ∀ {l₁ l₂ : List BlockRecord}, List.Perm l₁ l₂ →
      l₁.Sorted locLe → l₂.Sorted locLe →
      (∀ x ∈ l₁, ∀ y ∈ l₁, x.locator = y.locator → x = y) → l₁ = l₂ := by
  intro l₁
  induction l₁ with
  | nil =>
    intro l₂ hp _ _ _
    exact (hp.symm.eq_nil).symm ▸ rfl
  | cons a t₁ ih =>
    intro l₂ hp hs₁ hs₂ hinj
    cases l₂ with
    | nil => exact absurd hp.eq_nil (by simp)
    | cons b t₂ =>
      by_cases hab : a = b
      · subst hab
        have ht : List.Perm t₁ t₂ := hp.cons_inv
        have : t₁ = t₂ := by
          refine ih ht hs₁.of_cons hs₂.of_cons ?_
          intro x hx y hy hl
          exact hinj x (List.mem_cons_of_mem _ hx) y (List.mem_cons_of_mem _ hy) hl
        rw [this]
      · have hb₁ : b ∈ t₁ := by
          have hb : b ∈ a :: t₁ := hp.mem_iff.mpr (List.mem_cons_self b t₂)
          cases List.mem_cons.mp hb with
          | inl h => exact absurd h.symm hab
          | inr h => exact h
        have ha₂ : a ∈ t₂ := by
          have ha : a ∈ b :: t₂ := hp.mem_iff.mp (List.mem_cons_self a t₁)
          cases List.mem_cons.mp ha with
          | inl h => exact absurd h hab
          | inr h => exact h
        have h1 : locLe a b := List.rel_of_sorted_cons hs₁ b hb₁
        have h2 : locLe b a := List.rel_of_sorted_cons hs₂ a ha₂
        have heq : a.locator = b.locator :=
          String.ext (charListLe_antisymm _ _ h1 h2)
        exact absurd
          (hinj a (List.mem_cons_self a t₁) b (List.mem_cons_of_mem _ hb₁) heq)
          hab

/-- `toHash` factors through `toJson`. -/
theorem toHash_congr {l₁ l₂ : List BlockRecord} (h : toJson l₁ = toJson l₂) :
    toHash l₁ = toHash l₂ := by
  simp only [toHash, h]

/-- Claim C1 (amended): two Visibility Sets constructed from the same
records — any input orders, duplicates allowed — have byte-identical
`canonical_json` and `content_hash`, provided no two distinct records
share a locator. -/
theorem toJson_toHash_of_same_records_distinct_locators
    (L₁ L₂ l₁ l₂ : List BlockRecord)
    (h₁ : isEnumOf l₁ L₁) (h₂ : isEnumOf l₂ L₂)
    (hsame : (∀ x ∈ L₁, x ∈ L₂) ∧ ∀ x ∈ L₂, x ∈ L₁)
    (hinj : ∀ x ∈ L₁, ∀ y ∈ L₁, x.locator = y.locator → x = y) :
    toJson l₁ = toJson l₂ ∧ toHash l₁ = toHash l₂ := by
  obtain ⟨hn₁, hsub₁, hsup₁⟩ := h₁
  obtain ⟨hn₂, hsub₂, hsup₂⟩ := h₂
  have hmem : ∀ x, x ∈ l₁ ↔ x ∈ l₂ := by
    intro x
    constructor
    · intro hx
      exact hsup₂ x (hsame.1 x (hsub₁ x hx))
    · intro hx
      exact hsup₁ x (hsame.2 x (hsub₂ x hx))
  have hperm : List.Perm l₁ l₂ := by
    refine List.perm_of_nodup_nodup_toFinset_eq hn₁ hn₂ ?_
    ext x
    simpa [List.mem_toFinset] using hmem x
  have hsperm : List.Perm (sortLoc l₁) (sortLoc l₂) :=
    (List.perm_insertionSort locLe l₁).trans
      (hperm.trans (List.perm_insertionSort locLe l₂).symm)
  have hsorted₁ : (sortLoc l₁).Sorted locLe := List.sorted_insertionSort locLe l₁
  have hsorted₂ : (sortLoc l₂).Sorted locLe := List.sorted_insertionSort locLe l₂
  have hinj' : ∀ x ∈ sortLoc l₁, ∀ y ∈ sortLoc l₁, x.locator = y.locator → x = y := by
    intro x hx y hy
    have hx' : x ∈ l₁ := (List.perm_insertionSort locLe l₁).mem_iff.mp hx
    have hy' : y ∈ l₁ := (List.perm_insertionSort locLe l₁).mem_iff.mp hy
    exact hinj x (hsub₁ x hx') y (hsub₁ y hy')
  have hs : sortLoc l₁ = sortLoc l₂ :=
    sorted_eq_of_perm_of_locator_inj hsperm hsorted₁ hsorted₂ hinj'
  have hj : toJson l₁ = toJson l₂ := by
    simp only [toJson, hs]
  exact ⟨hj, toHash_congr hj⟩

/-- The float `1.0`. -/
def pyOne : PyFloat := ⟨(1, 0), Or.inl rfl⟩

/-- The float `2.0`. -/
def pyTwo : PyFloat := ⟨(2, 0), Or.inl rfl⟩

/-- The float `5.0`. -/
def pyFive : PyFloat := ⟨(5, 0), Or.inl rfl⟩

/-- The float `10.0`. -/
def pyTen : PyFloat := ⟨(10, 0), Or.inl rfl⟩

/-- A record with locator `"b1"`, weight `1.0`, max score `10.0`. -/
def recTiedA : BlockRecord := ⟨"b1", pyOne, pyTen⟩

/-- A distinct record with the same locator `"b1"` (weight `2.0`, max `5.0`):
locators are not forced to be distinct by anything in the code. -/
def recTiedB : BlockRecord := ⟨"b1", pyTwo, pyFive⟩

/-- Spec §8 scenario record `{locator: "b1", weight: 2, max_score: 5}`. -/
def recB1 : BlockRecord := ⟨"b1", pyTwo, pyFive⟩

/-- Spec §8 scenario record `{locator: "b2", weight: 1, max_score: 10}`. -/
def recB2 : BlockRecord := ⟨"b2", pyOne, pyTen⟩

/-- Claim C1 (counterexample): two enumerations of the same two-element
set of records — the same finite multiset of members, both duplicate-free
— produce different `canonical_json` when two distinct members share a
locator, because `sorted(self, key=attrgetter('locator'))` ties on the
key and stably preserves the set's unspecified iteration order. -/
theorem toJson_depends_on_enumeration_order :
    List.Perm [recTiedA, recTiedB] [recTiedB, recTiedA] ∧
    [recTiedA, recTiedB].Nodup ∧ [recTiedB, recTiedA].Nodup ∧
    toJson [recTiedA, recTiedB] ≠ toJson [recTiedB, recTiedA] :=
  ⟨List.Perm.swap recTiedB recTiedA [], by decide, by decide, by decide⟩

/-- Witness for the amended claim C1, at the spec's own §8 scenario:
`[b2, b1]` and `[b1, b2]` (the second built from an input with a
duplicate) hash identically. -/
theorem toJson_toHash_same_records_witness :
    toJson [recB2, recB1] = toJson [recB1, recB2] ∧
    toHash [recB2, recB1] = toHash [recB1, recB2] :=
  toJson_toHash_of_same_records_distinct_locators
    [recB2, recB1, recB2] [recB1, recB2] [recB2, recB1] [recB1, recB2]
    (by decide) (by decide) (by decide) (by decide)

/-! ## JSON parsing (model of `json.loads` on the grammar `to_json` emits)

`BlockRecordSet.from_json` is `json.loads` followed by
`BlockRecord(**block)` for each parsed object and a `frozenset` of the
results.  The parser below is a faithful model of `json.loads` restricted
to the grammar that `to_json` actually produces (an array of flat objects
with the three record keys); that restriction is all the round-trip law
exercises. -/

/-- Is `c` an ASCII decimal digit? -/
def isDigitChar (c : Char) : Bool := decide (0x30 ≤ c.toNat ∧ c.toNat ≤ 0x39)

/-- Numeric value of a digit character. -/
def digitVal (c : Char) : Nat := c.toNat - 0x30

/-- Split a leading run of digits off a character list. -/
def takeDigits : List Char → List Char × List Char
  | [] => ([], [])
  | c :: cs =>
    if isDigitChar c then
      let p := takeDigits cs
      (c :: p.1, p.2)
    else ([], c :: cs)

/-- Value of a digit run, most significant first. -/
def digitsVal (ds : List Char) : Nat :=
  ds.foldl (fun a c => a * 10 + digitVal c) 0

/-- Remove trailing `'0'` digits (the inverse of float-repr's habit of
printing at least one fractional digit). -/
def stripZeros (l : List Char) : List Char :=
  (l.reverse.dropWhile (fun c => c = '0')).reverse

/-- Construct a canonical `PyFloat` from mantissa and scale, refusing a
non-canonical pair (never hit on digit runs with trailing zeros already
stripped). -/
def mkPyFloat (m : Int) (e : Nat) : Option PyFloat :=
  if h : e = 0 ∨ m % 10 ≠ 0 then some ⟨(m, e), h⟩ else none

/-- Parse the unsigned decimal `digits '.' digits` body of a JSON float,
returning mantissa and scale of the exact decimal value. -/
def parseNumBody (l : List Char) : Option ((Nat × Nat) × List Char) :=
  let ip := takeDigits l
  if ip.1 = [] then none
  else
    match ip.2 with
    | '.' :: rest2 =>
      let fp := takeDigits rest2
      if fp.1 = [] then none
      else
        let fds := stripZeros fp.1
        some ((digitsVal ip.1 * 10 ^ fds.length + digitsVal fds, fds.length), fp.2)
    | _ => none

/-- Parse a JSON float as `json.loads` reads the ones `to_json` writes
(`float()` of an optional sign and a plain decimal literal). -/
def parsePyFloat (l : List Char) : Option (PyFloat × List Char) :=
  if l.head? = some '-' then
    match parseNumBody l.tail with
    | none => none
    | some ((m, e), rest2) =>
      if m = 0 then none
      else
        match mkPyFloat (-(m : Int)) e with
        | none => none
        | some f => some (f, rest2)
  else
    match parseNumBody l with
    | none => none
    | some ((m, e), rest2) =>
      match mkPyFloat (m : Int) e with
      | none => none
      | some f => some (f, rest2)

/-- `Nat.digitChar` of a digit is an ASCII digit character. -/
theorem isDigitChar_digitChar {n : Nat} (h : n < 10) :
    isDigitChar (Nat.digitChar n) = true := by
  have hall : ∀ m, m < 10 → isDigitChar (Nat.digitChar m) = true := by decide
  exact hall n h

/-- `digitVal` inverts `Nat.digitChar` on digits. -/
theorem digitVal_digitChar {n : Nat} (h : n < 10) :
    digitVal (Nat.digitChar n) = n := by
  have hall : ∀ m, m < 10 → digitVal (Nat.digitChar m) = m := by decide
  exact hall n h

/-- A nonzero digit does not print as `'0'`. -/
theorem digitChar_ne_zero {n : Nat} (h : n < 10) (hn : n ≠ 0) :
    Nat.digitChar n ≠ '0' := by
  have hall : ∀ m, m < 10 → m ≠ 0 → Nat.digitChar m ≠ '0' := by decide
  exact hall n h hn

/-- A digit character is not `'-'`. -/
theorem isDigitChar_ne_minus {c : Char} (h : isDigitChar c = true) : c ≠ '-' := by
  intro hc
  subst hc
  simp [isDigitChar] at h

/-- Full specification of the fueled digit printer: with enough fuel it
prepends a nonempty digit run of value `n` to the accumulator. -/
theorem natDigitsAux_spec :
    ∀ fuel n acc, 0 < fuel → n < 10 ^ fuel →
      ∃ ds, natDigitsAux fuel n acc = ds ++ acc ∧ ds ≠ [] ∧
        (∀ c ∈ ds, isDigitChar c = true) ∧
        ∀ a, List.foldl (fun a c => a * 10 + digitVal c) a ds =
          a * 10 ^ ds.length + n := by
  intro fuel
  induction fuel with
  | zero => intro n acc h; omega
  | succ f ih =>
    intro n acc _ hn
    by_cases h : n < 10
    · refine ⟨[Nat.digitChar n], ?_, by simp, ?_, ?_⟩
      · simp [natDigitsAux, h]
      · intro c hc
        rw [List.mem_singleton] at hc
        subst hc
        exact isDigitChar_digitChar h
      · intro a
        simp [digitVal_digitChar h]
    · have hf : 0 < f := by
        by_contra hf0
        have : f = 0 := by omega
        subst this
        simp at hn
        omega
      have hlt : n / 10 < 10 ^ f := by
        rw [Nat.div_lt_iff_lt_mul (by norm_num)]
        calc n < 10 ^ (f + 1) := hn
        _ = 10 ^ f * 10 := by ring
      obtain ⟨ds', heq, hne, hdig, hval⟩ :=
        ih (n / 10) (Nat.digitChar (n % 10) :: acc) hf hlt
      refine ⟨ds' ++ [Nat.digitChar (n % 10)], ?_, by simp, ?_, ?_⟩
      · rw [natDigitsAux, if_neg h, heq, List.append_assoc, List.singleton_append]
      · intro c hc
        rcases List.mem_append.mp hc with hc | hc
        · exact hdig c hc
        · rw [List.mem_singleton] at hc
          subst hc
          exact isDigitChar_digitChar (Nat.mod_lt n (by norm_num))
      · intro a
        rw [List.foldl_append, hval a]
        simp only [List.foldl_cons, List.foldl_nil, List.length_append,
          List.length_singleton]
        rw [digitVal_digitChar (Nat.mod_lt n (by norm_num))]
        calc (a * 10 ^ ds'.length + n / 10) * 10 + n % 10
            = a * (10 ^ ds'.length * 10) + (n / 10 * 10 + n % 10) := by ring
          _ = a * 10 ^ (ds'.length + 1) + n := by
              rw [pow_succ]
              congr 1
              omega

/-- The digit run of `n`: nonempty, all digits, value `n`. -/
theorem natDigits_spec (n : Nat) :
    natDigits n ≠ [] ∧ (∀ c ∈ natDigits n, isDigitChar c = true) ∧
      digitsVal (natDigits n) = n := by
  have hfuel : n < 10 ^ (n + 1) := by
    calc n < 10 ^ n := Nat.lt_pow_self (by norm_num) n
    _ ≤ 10 ^ (n + 1) := Nat.pow_le_pow_right (by norm_num) (by omega)
  obtain ⟨ds, heq, hne, hdig, hval⟩ :=
    natDigitsAux_spec (n + 1) n [] (by omega) hfuel
  have : natDigits n = ds := by
    rw [natDigits, heq, List.append_nil]
  rw [this]
  refine ⟨hne, hdig, ?_⟩
  have := hval 0
  simpa [digitsVal] using this

/-- `takeDigits` splits exactly at the first non-digit. -/
theorem takeDigits_append (ds rest : List Char)
    (hd : ∀ c ∈ ds, isDigitChar c = true)
    (hr : ∀ c, rest.head? = some c → isDigitChar c = false) :
    takeDigits (ds ++ rest) = (ds, rest) := by
  induction ds with
  | nil =>
    cases rest with
    | nil => rfl
    | cons c cs =>
      simp only [List.nil_append, takeDigits, hr c rfl]
      simp
  | cons d ds' ih =>
    have hd' : isDigitChar d = true := hd d (List.mem_cons_self d ds')
    have ihe := ih (fun c hc => hd c (List.mem_cons_of_mem d hc))
    simp only [List.cons_append, takeDigits, hd', if_true, List.append_eq, ihe]

/-- `natDigitsPad k` always returns `k` digit characters. -/
theorem natDigitsPad_length (k : Nat) : ∀ n, (natDigitsPad k n).length = k := by
  induction k with
  | zero => intro n; rfl
  | succ j ih =>
    intro n
    simp [natDigitsPad, ih]

/-- The padded digits are all digit characters. -/
theorem natDigitsPad_digits (k : Nat) :
    ∀ n, ∀ c ∈ natDigitsPad k n, isDigitChar c = true := by
  induction k with
  | zero => intro n c hc; simp [natDigitsPad] at hc
  | succ j ih =>
    intro n c hc
    rcases List.mem_append.mp hc with hc | hc
    · exact ih (n / 10) c hc
    · rw [List.mem_singleton] at hc
      subst hc
      exact isDigitChar_digitChar (Nat.mod_lt n (by norm_num))

/-- Value of the padded digit run: `n` modulo the padded width. -/
theorem foldl_natDigitsPad (k : Nat) :
    ∀ n a, List.foldl (fun a c => a * 10 + digitVal c) a (natDigitsPad k n) =
      a * 10 ^ k + n % 10 ^ k := by
  induction k with
  | zero => intro n a; simp [natDigitsPad, Nat.mod_one]
  | succ j ih =>
    intro n a
    rw [natDigitsPad, List.foldl_append, ih (n / 10) a]
    simp only [List.foldl_cons, List.foldl_nil]
    rw [digitVal_digitChar (Nat.mod_lt n (by norm_num))]
    rw [show (10 : Nat) ^ (j + 1) = 10 * 10 ^ j by ring, Nat.mod_mul]
    ring

/-- Stripping trailing zeros is the identity when the last digit is not zero. -/
theorem stripZeros_concat (ds : List Char) (d : Char) (h : d ≠ '0') :
    stripZeros (ds ++ [d]) = ds ++ [d] := by
  simp [stripZeros, List.dropWhile_cons, h]

/-- Stripping the single `'0'` that `repr` prints for an integral float. -/
theorem stripZeros_single_zero : stripZeros ['0'] = [] := rfl

/-- `parseNumBody` on the rendering of an integral decimal (`n` then `".0"`). -/
theorem parseNumBody_int (n : Nat) (rest : List Char)
    (hr : ∀ c, rest.head? = some c → isDigitChar c = false) :
    parseNumBody (natDigits n ++ '.' :: '0' :: rest) = some ((n, 0), rest) := by
  obtain ⟨hne, hdig, hval⟩ := natDigits_spec n
  have ht : takeDigits (natDigits n ++ '.' :: '0' :: rest) =
      (natDigits n, '.' :: '0' :: rest) :=
    takeDigits_append _ _ hdig (by intro c hc; simp at hc; subst hc; decide)
  have ht2 : takeDigits ('0' :: rest) = (['0'], rest) := by
    have h01 : ∀ c ∈ ['0'], isDigitChar c = true := by decide
    simpa using takeDigits_append ['0'] rest h01 hr
  have h0 : digitsVal ([] : List Char) = 0 := rfl
  simp only [parseNumBody, ht, if_neg hne, ht2]
  rw [stripZeros_single_zero]
  simp [h0, hval]

/-- `parseNumBody` on the rendering of a decimal with `e > 0` fractional
digits whose last digit is nonzero. -/
theorem parseNumBody_frac (q X e : Nat) (he : 0 < e) (hX : X < 10 ^ e)
    (hX0 : X % 10 ≠ 0) (rest : List Char)
    (hr : ∀ c, rest.head? = some c → isDigitChar c = false) :
    parseNumBody (natDigits q ++ '.' :: (natDigitsPad e X ++ rest)) =
      some ((q * 10 ^ e + X, e), rest) := by
  obtain ⟨hne, hdig, hval⟩ := natDigits_spec q
  have ht : takeDigits (natDigits q ++ '.' :: (natDigitsPad e X ++ rest)) =
      (natDigits q, '.' :: (natDigitsPad e X ++ rest)) :=
    takeDigits_append _ _ hdig (by intro c hc; simp at hc; subst hc; decide)
  have ht2 : takeDigits (natDigitsPad e X ++ rest) = (natDigitsPad e X, rest) :=
    takeDigits_append _ _ (natDigitsPad_digits e X) hr
  have hlen : (natDigitsPad e X).length = e := natDigitsPad_length e X
  have hpne : natDigitsPad e X ≠ [] := by
    intro hnil
    rw [hnil] at hlen
    simp at hlen
    omega
  have hstrip : stripZeros (natDigitsPad e X) = natDigitsPad e X := by
    cases e with
    | zero => omega
    | succ j =>
      rw [natDigitsPad]
      exact stripZeros_concat _ _
        (digitChar_ne_zero (Nat.mod_lt X (by norm_num)) hX0)
  have hfval : digitsVal (natDigitsPad e X) = X := by
    have := foldl_natDigitsPad e X 0
    simpa [digitsVal, Nat.mod_eq_of_lt hX] using this
  simp only [parseNumBody, ht, if_neg hne, ht2, hstrip, if_neg hpne, hlen,
    hfval, hval]

/-- `mkPyFloat` succeeds exactly on canonical pairs. -/
theorem mkPyFloat_eq (m : Int) (e : Nat) (h : e = 0 ∨ m % 10 ≠ 0) :
    mkPyFloat m e = some ⟨(m, e), h⟩ := by
  unfold mkPyFloat
  exact dif_pos h

/-- `parsePyFloat` on a signed literal. -/
theorem parsePyFloat_neg (body rest : List Char) (n : Nat) (e : Nat)
    (hb : parseNumBody body = some ((n, e), rest)) (hn : n ≠ 0)
    (h : e = 0 ∨ -((n : Int)) % 10 ≠ 0) :
    parsePyFloat ('-' :: body) = some (⟨(-(n : Int), e), h⟩, rest) := by
  unfold parsePyFloat
  simp only [List.head?_cons, List.tail_cons, if_true, hb, if_neg hn,
    mkPyFloat_eq (-(n : Int)) e h]

/-- `parsePyFloat` on an unsigned literal. -/
theorem parsePyFloat_pos (body rest : List Char) (n : Nat) (e : Nat)
    (hhead : body.head? ≠ some '-')
    (hb : parseNumBody body = some ((n, e), rest))
    (h : e = 0 ∨ ((n : Int)) % 10 ≠ 0) :
    parsePyFloat body = some (⟨((n : Int), e), h⟩, rest) := by
  unfold parsePyFloat
  rw [if_neg hhead, hb]
  simp only [mkPyFloat_eq ((n : Int)) e h]

/-- The rendering of a canonical `PyFloat` parses back to exactly that
value (the model of `float(repr(x)) == x`). -/
theorem parsePyFloat_pyFloatDigits (f : PyFloat) (rest : List Char)
    (hr : ∀ c, rest.head? = some c → isDigitChar c = false) :
    parsePyFloat (pyFloatDigits f ++ rest) = some (f, rest) := by
  obtain ⟨⟨m, e⟩, hcanon⟩ := f
  by_cases hmneg : m < 0
  · have habs : -((m.natAbs : Int)) = m := by omega
    have hnz : m.natAbs ≠ 0 := by omega
    by_cases he0 : e = 0
    · subst he0
      have htext : pyFloatDigits ⟨(m, 0), hcanon⟩ ++ rest =
          '-' :: (natDigits m.natAbs ++ '.' :: '0' :: rest) := by
        simp [pyFloatDigits, PyFloat.m, PyFloat.e, if_pos hmneg]
      rw [htext, parsePyFloat_neg _ _ _ _ (parseNumBody_int m.natAbs rest hr)
        hnz (Or.inl rfl)]
      exact congrArg (fun x => some (x, rest))
        (Subtype.ext (show ((-(m.natAbs : Int), 0) : Int × Nat) = (m, 0) by rw [habs]))
    · have hepos : 0 < e := Nat.pos_of_ne_zero he0
      have hm10 : m % 10 ≠ 0 := hcanon.resolve_left he0
      have hX : m.natAbs % 10 ^ e < 10 ^ e :=
        Nat.mod_lt _ (Nat.pos_pow_of_pos e (by norm_num))
      have hX0 : m.natAbs % 10 ^ e % 10 ≠ 0 := by
        rw [Nat.mod_mod_of_dvd _ (dvd_pow_self 10 he0)]
        omega
      have htext : pyFloatDigits ⟨(m, e), hcanon⟩ ++ rest =
          '-' :: (natDigits (m.natAbs / 10 ^ e) ++
            '.' :: (natDigitsPad e (m.natAbs % 10 ^ e) ++ rest)) := by
        simp [pyFloatDigits, PyFloat.m, PyFloat.e, if_pos hmneg, if_neg he0]
      have hsum : m.natAbs / 10 ^ e * 10 ^ e + m.natAbs % 10 ^ e = m.natAbs := by
        rw [Nat.mul_comm]
        exact Nat.div_add_mod _ _
      have hbody := parseNumBody_frac (m.natAbs / 10 ^ e) (m.natAbs % 10 ^ e)
        e hepos hX hX0 rest hr
      rw [hsum] at hbody
      have hcan2 : e = 0 ∨ -((m.natAbs : Int)) % 10 ≠ 0 := by
        refine Or.inr ?_
        rw [habs]
        exact hm10
      rw [htext, parsePyFloat_neg _ _ _ _ hbody hnz hcan2]
      exact congrArg (fun x => some (x, rest))
        (Subtype.ext (show ((-(m.natAbs : Int), e) : Int × Nat) = (m, e) by rw [habs]))
  · have habs : ((m.natAbs : Int)) = m := by omega
    have hhead : ∀ body tail, natDigits body ++ tail ≠ [] ∧
        ∀ c, (natDigits body ++ tail).head? = some c → c ≠ '-' := by
      intro body tail
      obtain ⟨hne, hdig, _⟩ := natDigits_spec body
      cases hq : natDigits body with
      | nil => exact absurd hq hne
      | cons d ds =>
        refine ⟨by simp, ?_⟩
        intro c hc
        simp at hc
        subst hc
        exact isDigitChar_ne_minus (hdig d (by rw [hq]; exact List.mem_cons_self d ds))
    by_cases he0 : e = 0
    · subst he0
      have htext : pyFloatDigits ⟨(m, 0), hcanon⟩ ++ rest =
          natDigits m.natAbs ++ '.' :: '0' :: rest := by
        simp [pyFloatDigits, PyFloat.m, PyFloat.e, if_neg hmneg]
      have hh : (natDigits m.natAbs ++ '.' :: '0' :: rest).head? ≠ some '-' := by
        obtain ⟨hne2, hnm⟩ := hhead m.natAbs ('.' :: '0' :: rest)
        intro hc
        exact hnm '-' hc rfl
      rw [htext, parsePyFloat_pos _ _ _ _ hh (parseNumBody_int m.natAbs rest hr)
        (Or.inl rfl)]
      exact congrArg (fun x => some (x, rest))
        (Subtype.ext (show (((m.natAbs : Int), 0) : Int × Nat) = (m, 0) by rw [habs]))
    · have hepos : 0 < e := Nat.pos_of_ne_zero he0
      have hm10 : m % 10 ≠ 0 := hcanon.resolve_left he0
      have hX : m.natAbs % 10 ^ e < 10 ^ e :=
        Nat.mod_lt _ (Nat.pos_pow_of_pos e (by norm_num))
      have hX0 : m.natAbs % 10 ^ e % 10 ≠ 0 := by
        rw [Nat.mod_mod_of_dvd _ (dvd_pow_self 10 he0)]
        omega
      have htext : pyFloatDigits ⟨(m, e), hcanon⟩ ++ rest =
          natDigits (m.natAbs / 10 ^ e) ++
            '.' :: (natDigitsPad e (m.natAbs % 10 ^ e) ++ rest) := by
        simp [pyFloatDigits, PyFloat.m, PyFloat.e, if_neg hmneg, if_neg he0]
      have hsum : m.natAbs / 10 ^ e * 10 ^ e + m.natAbs % 10 ^ e = m.natAbs := by
        rw [Nat.mul_comm]
        exact Nat.div_add_mod _ _
      have hbody := parseNumBody_frac (m.natAbs / 10 ^ e) (m.natAbs % 10 ^ e)
        e hepos hX hX0 rest hr
      rw [hsum] at hbody
      have hh : (natDigits (m.natAbs / 10 ^ e) ++
          '.' :: (natDigitsPad e (m.natAbs % 10 ^ e) ++ rest)).head? ≠ some '-' := by
        obtain ⟨hne2, hnm⟩ := hhead (m.natAbs / 10 ^ e)
          ('.' :: (natDigitsPad e (m.natAbs % 10 ^ e) ++ rest))
        intro hc
        exact hnm '-' hc rfl
      have hcan2 : e = 0 ∨ ((m.natAbs : Int)) % 10 ≠ 0 := by
        refine Or.inr ?_
        rw [habs]
        exact hm10
      rw [htext, parsePyFloat_pos _ _ _ _ hh hbody hcan2]
      exact congrArg (fun x => some (x, rest))
        (Subtype.ext (show (((m.natAbs : Int), e) : Int × Nat) = (m, e) by rw [habs]))

/-- Value of one hex digit (`json.loads` accepts both cases; `json.dumps`
emits lowercase). -/
def hexDigitVal (c : Char) : Option Nat :=
  if 0x30 ≤ c.toNat ∧ c.toNat ≤ 0x39 then some (c.toNat - 0x30)
  else if 0x61 ≤ c.toNat ∧ c.toNat ≤ 0x66 then some (c.toNat - 0x57)
  else if 0x41 ≤ c.toNat ∧ c.toNat ≤ 0x46 then some (c.toNat - 0x37)
  else none

/-- Value of a 4-digit hex escape. -/
def hexVal4 (a b c d : Char) : Option Nat :=
  match hexDigitVal a, hexDigitVal b, hexDigitVal c, hexDigitVal d with
  | some x, some y, some z, some w => some (((x * 16 + y) * 16 + z) * 16 + w)
  | _, _, _, _ => none

/-- Decoding of the short escapes `json.loads` knows. -/
def escDecode (e : Char) : Option Char :=
  if e = '"' then some '"'
  else if e = '\\' then some '\\'
  else if e = '/' then some '/'
  else if e = 'b' then some '\x08'
  else if e = 'f' then some '\x0c'
  else if e = 'n' then some '\x0a'
  else if e = 'r' then some '\x0d'
  else if e = 't' then some '\x09'
  else none

/-- Decoding of a low-surrogate escape completing a pair. -/
def unescapeLow (code lo : Nat) (rest4 : List Char) : Option (Char × List Char) :=
  if 0xDC00 ≤ lo ∧ lo < 0xE000 then
    some (Char.ofNat (0x10000 + (code - 0xD800) * 0x400 + (lo - 0xDC00)), rest4)
  else none

/-- After a high surrogate, scan the mandatory second `\uXXXX` escape. -/
def unescapeSurrogate (code : Nat) : List Char → Option (Char × List Char)
  | u1 :: u2 :: a2 :: b2 :: c3 :: d2 :: rest4 =>
    if u1 = '\\' ∧ u2 = 'u' then
      (hexVal4 a2 b2 c3 d2).bind fun lo => unescapeLow code lo rest4
    else none
  | _ => none

/-- Interpret the code of a `\uXXXX` escape: a scalar stands alone, a
high surrogate must be followed by a low surrogate, a lone low surrogate
is rejected (it has no Unicode scalar; `to_json` never writes one). -/
def unescapeCode (code : Nat) (rest3 : List Char) : Option (Char × List Char) :=
  if code < 0xD800 ∨ 0xE000 ≤ code then some (Char.ofNat code, rest3)
  else if code < 0xDC00 then unescapeSurrogate code rest3
  else none

/-- Scan the four hex digits of a `\uXXXX` escape. -/
def unescapeU : List Char → Option (Char × List Char)
  | a :: b :: c2 :: d :: rest3 =>
    (hexVal4 a b c2 d).bind fun code => unescapeCode code rest3
  | _ => none

/-- Decode one character of a JSON string body, as `json.loads` scans it:
a plain character, a short escape, or a `\uXXXX` escape (with surrogate
pairs recombined). -/
def unescapeStep : List Char → Option (Char × List Char)
  | [] => none
  | c :: rest =>
    if c = '\\' then
      match rest with
      | [] => none
      | e :: rest2 =>
        if e = 'u' then unescapeU rest2
        else (escDecode e).map fun ch => (ch, rest2)
    else some (c, rest)

/-- The string-body scan loop, fueled for structural recursion (each step
consumes at least one character, so `length` fuel always suffices). -/
def parseStringBodyAux : Nat → List Char → Option (List Char × List Char)
  | 0, _ => none
  | _ + 1, [] => none
  | fuel + 1, c :: rest =>
    if c = '"' then some ([], rest)
    else
      (unescapeStep (c :: rest)).bind fun p =>
        (parseStringBodyAux fuel p.2).map fun q => (p.1 :: q.1, q.2)

/-- Body of a JSON string literal (after the opening quote): characters
up to the closing quote, unescaped. -/
def parseStringBody (l : List Char) : Option (List Char × List Char) :=
  parseStringBodyAux l.length l

/-- The four hex digits printed by `hex4` recombine to the value. -/
theorem hexVal4_hex4 (n : Nat) (h : n < 0x10000) :
    hexVal4 (Nat.digitChar (n / 4096 % 16)) (Nat.digitChar (n / 256 % 16))
      (Nat.digitChar (n / 16 % 16)) (Nat.digitChar (n % 16)) = some n := by
  have hd : ∀ k, k < 16 → hexDigitVal (Nat.digitChar k) = some k := by decide
  unfold hexVal4
  rw [hd _ (Nat.mod_lt _ (by norm_num)), hd _ (Nat.mod_lt _ (by norm_num)),
    hd _ (Nat.mod_lt _ (by norm_num)), hd _ (Nat.mod_lt _ (by norm_num))]
  simp only [Option.some.injEq]
  omega

/-- Scalar-value bounds of a `Char`. -/
theorem char_valid_bounds (c : Char) :
    c.toNat < 0xD800 ∨ (0xDFFF < c.toNat ∧ c.toNat < 0x110000) := by
  have h := c.valid
  simp [UInt32.isValidChar, Nat.isValidChar] at h
  rcases h with h | h
  · left; exact h
  · right; exact h

/-- `unescapeU` on the four digits of `hex4` recovers the code. -/
theorem unescapeU_hex4 (n : Nat) (h : n < 0x10000) (tail : List Char) :
    unescapeU (hex4 n ++ tail) = unescapeCode n tail := by
  show (hexVal4 (Nat.digitChar (n / 4096 % 16)) (Nat.digitChar (n / 256 % 16))
    (Nat.digitChar (n / 16 % 16)) (Nat.digitChar (n % 16))).bind
      (fun code => unescapeCode code tail) = unescapeCode n tail
  rw [hexVal4_hex4 n h, Option.some_bind]

/-- Decoding a scalar (non-surrogate) code. -/
theorem unescapeCode_bmp (code : Nat) (h : code < 0xD800 ∨ 0xE000 ≤ code)
    (tail : List Char) :
    unescapeCode code tail = some (Char.ofNat code, tail) := by
  unfold unescapeCode
  rw [if_pos h]

/-- Decoding a high surrogate followed by the matching low-surrogate escape. -/
theorem unescapeCode_surrogatePair (hi lo : Nat)
    (hhi : 0xD800 ≤ hi ∧ hi < 0xDC00) (hlo : 0xDC00 ≤ lo ∧ lo < 0xE000)
    (tail : List Char) :
    unescapeCode hi ('\\' :: 'u' :: (hex4 lo ++ tail)) =
      some (Char.ofNat (0x10000 + (hi - 0xD800) * 0x400 + (lo - 0xDC00)), tail) := by
  unfold unescapeCode
  rw [if_neg (by omega), if_pos hhi.2]
  show (hexVal4 (Nat.digitChar (lo / 4096 % 16)) (Nat.digitChar (lo / 256 % 16))
    (Nat.digitChar (lo / 16 % 16)) (Nat.digitChar (lo % 16))).bind
      (fun l2 => unescapeLow hi l2 tail) = _
  rw [hexVal4_hex4 lo (by omega), Option.some_bind]
  unfold unescapeLow
  rw [if_pos hlo]

/-- Every escape is at least one character long. -/
theorem escapeChar_length_pos (c : Char) : 1 ≤ (escapeChar c).length := by
  unfold escapeChar
  split_ifs <;> simp

/-- No escape begins with a quote, so the scan loop never stops inside
an escaped character. -/
theorem escapeChar_head_ne_quote (c : Char) (hd : Char) (t : List Char)
    (h : escapeChar c = hd :: t) : hd ≠ '"' := by
  unfold escapeChar at h
  split_ifs at h with h1 h2 h3 h4 h5 h6 h7 h8 h9 <;>
    (try simp only [List.cons_append] at h) <;>
    injection h with hh _
  · subst hh; decide
  · subst hh; decide
  · subst hh; exact h1
  · subst hh; decide
  · subst hh; decide
  · subst hh; decide
  · subst hh; decide
  · subst hh; decide
  · subst hh; decide
  · subst hh; decide

set_option maxRecDepth 2048 in
/-- `unescapeStep` inverts `escapeChar`, for every Unicode character. -/
theorem unescapeStep_escapeChar (c : Char) (T : List Char) :
    unescapeStep (escapeChar c ++ T) = some (c, T) := by
  have hvb := char_valid_bounds c
  by_cases h1 : c = '"'
  · subst h1; rfl
  · by_cases h2 : c = '\\'
    · subst h2; rfl
    · by_cases h3 : 0x20 ≤ c.toNat ∧ c.toNat ≤ 0x7e
      · have he : escapeChar c = [c] := by simp [escapeChar, h1, h2, h3]
        rw [he, List.singleton_append]
        simp only [unescapeStep]
        rw [if_neg h2]
      · by_cases h4 : c = '\x08'
        · subst h4; rfl
        · by_cases h5 : c = '\x09'
          · subst h5; rfl
          · by_cases h6 : c = '\x0a'
            · subst h6; rfl
            · by_cases h7 : c = '\x0c'
              · subst h7; rfl
              · by_cases h8 : c = '\x0d'
                · subst h8; rfl
                · by_cases h9 : c.toNat < 0x10000
                  · have he : escapeChar c = '\\' :: 'u' :: hex4 c.toNat := by
                      simp [escapeChar, h1, h2, h3, h4, h5, h6, h7, h8, h9]
                    rw [he]
                    have hstep : unescapeStep (('\\' :: 'u' :: hex4 c.toNat) ++ T) =
                        unescapeU (hex4 c.toNat ++ T) := rfl
                    rw [hstep, unescapeU_hex4 c.toNat h9 T,
                      unescapeCode_bmp c.toNat (by omega), Char.ofNat_toNat]
                  · have he : escapeChar c =
                        ('\\' :: 'u' :: hex4 (0xD800 + (c.toNat - 0x10000) / 0x400)) ++
                        ('\\' :: 'u' :: hex4 (0xDC00 + (c.toNat - 0x10000) % 0x400)) := by
                      simp [escapeChar, h1, h2, h3, h4, h5, h6, h7, h8, h9]
                    have hdiv : (c.toNat - 0x10000) / 0x400 < 0x400 := by
                      rw [Nat.div_lt_iff_lt_mul (by norm_num)]
                      omega
                    have hmod : (c.toNat - 0x10000) % 0x400 < 0x400 :=
                      Nat.mod_lt _ (by norm_num)
                    rw [he]
                    have hstep : unescapeStep
                        ((('\\' :: 'u' :: hex4 (0xD800 + (c.toNat - 0x10000) / 0x400)) ++
                          ('\\' :: 'u' :: hex4 (0xDC00 + (c.toNat - 0x10000) % 0x400))) ++ T) =
                        unescapeU (hex4 (0xD800 + (c.toNat - 0x10000) / 0x400) ++
                          ('\\' :: 'u' :: (hex4 (0xDC00 + (c.toNat - 0x10000) % 0x400) ++ T))) := by
                      simp only [List.cons_append, List.append_assoc]
                      rfl
                    rw [hstep,
                      unescapeU_hex4 (0xD800 + (c.toNat - 0x10000) / 0x400) (by omega)
                        ('\\' :: 'u' :: (hex4 (0xDC00 + (c.toNat - 0x10000) % 0x400) ++ T)),
                      unescapeCode_surrogatePair (0xD800 + (c.toNat - 0x10000) / 0x400)
                        (0xDC00 + (c.toNat - 0x10000) % 0x400) (by omega) (by omega) T]
                    have harg : 0x10000 +
                        (0xD800 + (c.toNat - 0x10000) / 0x400 - 0xD800) * 0x400 +
                        (0xDC00 + (c.toNat - 0x10000) % 0x400 - 0xDC00) = c.toNat := by
                      omega
                    rw [harg, Char.ofNat_toNat]

/-- The fueled scan loop inverts `escapeList` when given enough fuel. -/
theorem parseStringBodyAux_escape :
    ∀ (s rest : List Char) (fuel : Nat),
      (escapeList s).length + rest.length + 1 ≤ fuel →
      parseStringBodyAux fuel (escapeList s ++ '"' :: rest) = some (s, rest) := by
  intro s
  induction s with
  | nil =>
    intro rest fuel hf
    cases fuel with
    | zero => simp [escapeList] at hf
    | succ g =>
      simp only [escapeList, List.nil_append]
      unfold parseStringBodyAux
      rw [if_pos rfl]
  | cons c cs ih =>
    intro rest fuel hf
    have hlen : 1 ≤ (escapeChar c).length := escapeChar_length_pos c
    have hlist : escapeList (c :: cs) = escapeChar c ++ escapeList cs := rfl
    obtain ⟨hd, t, hcons⟩ : ∃ hd t, escapeChar c = hd :: t := by
      cases hq : escapeChar c with
      | nil => rw [hq] at hlen; simp at hlen
      | cons hd t => exact ⟨hd, t, rfl⟩
    have hfuel1 : 1 ≤ fuel := by
      rw [hlist] at hf
      simp [List.length_append] at hf
      omega
    obtain ⟨g, hg⟩ : ∃ g, fuel = g + 1 := ⟨fuel - 1, by omega⟩
    subst hg
    rw [hlist, List.append_assoc, hcons, List.cons_append]
    unfold parseStringBodyAux
    rw [if_neg (escapeChar_head_ne_quote c hd t hcons)]
    rw [← List.cons_append, ← hcons, unescapeStep_escapeChar c _,
      Option.some_bind]
    have hfg : (escapeList cs).length + rest.length + 1 ≤ g := by
      rw [hlist] at hf
      rw [List.length_append] at hf
      omega
    rw [ih rest g hfg]
    rfl

/-- Unescaping inverts escaping: the body scanner of `json.loads` returns
exactly the string `json.dumps` escaped, for every Unicode string. -/
theorem parseStringBody_escapeList (s rest : List Char) :
    parseStringBody (escapeList s ++ '"' :: rest) = some (s, rest) := by
  unfold parseStringBody
  refine parseStringBodyAux_escape s rest _ ?_
  simp [List.length_append]
  omega

/-- Consume an expected literal prefix. -/
def expectChars : List Char → List Char → Option (List Char)
  | [], l => some l
  | p :: ps, c :: cs => if c = p then expectChars ps cs else none
  | _ :: _, [] => none

/-- One record object, in the (fixed, sorted-key) shape `to_json` emits;
`json.loads` of such an object followed by `BlockRecord(**block)`. -/
def parseRecord (l : List Char) : Option (BlockRecord × List Char) :=
  (expectChars ("\x7b\"locator\":\"".data) l).bind fun l1 =>
  (parseStringBody l1).bind fun p =>
  (expectChars (",\"max_score\":".data) p.2).bind fun l3 =>
  (parsePyFloat l3).bind fun q =>
  (expectChars (",\"weight\":".data) q.2).bind fun l5 =>
  (parsePyFloat l5).bind fun w =>
  match w.2 with
  | '}' :: l7 => some (⟨String.mk p.1, w.1, q.1⟩, l7)
  | _ => none

/-- The comma-separated tail of a JSON array of records, fueled for
structural recursion (each record consumes at least one character). -/
def parseRecordsAux : Nat → List Char → Option (List BlockRecord × List Char)
  | 0, _ => none
  | fuel + 1, l =>
    (parseRecord l).bind fun p =>
    match p.2 with
    | ',' :: l2 => (parseRecordsAux fuel l2).bind fun q => some (p.1 :: q.1, q.2)
    | ']' :: l2 => some ([p.1], l2)
    | _ => none

/-- A whole JSON array of record objects, requiring full consumption of
the input, as `json.loads` does. -/
def parseRecords (l : List Char) : Option (List BlockRecord) :=
  match l with
  | '[' :: l1 =>
    if l1 = [']'] then some []
    else
      match parseRecordsAux l1.length l1 with
      | some (rs, rest) => if rest = [] then some rs else none
      | none => none
  | _ => none

/-- `BlockRecordSet.from_json`: `json.loads` then `BlockRecord(**block)`
for every parsed object, collected into a `frozenset` (modelled, as
everywhere in this file, by a deduplicated enumeration). -/
def fromJson (s : String) : Option (List BlockRecord) :=
  (parseRecords s.data).map List.dedup

/-- Consuming a literal prefix succeeds on exactly that prefix. -/
theorem expectChars_self : ∀ (p l : List Char), expectChars p (p ++ l) = some l := by
  intro p
  induction p with
  | nil => intro l; rfl
  | cons c cs ih =>
    intro l
    simp only [List.cons_append, expectChars, if_pos rfl]
    exact ih l

/-- `parseRecord` inverts `renderRecord`, leaving the rest untouched. -/
theorem parseRecord_renderRecord (r : BlockRecord) (rest : List Char) :
    parseRecord (renderRecord r ++ rest) = some (r, rest) := by
  have htext : renderRecord r ++ rest =
      "\x7b\"locator\":\"".data ++
        (escapeList r.locator.data ++ '"' ::
          (",\"max_score\":".data ++
            (pyFloatDigits r.max_score ++
              (",\"weight\":".data ++
                (pyFloatDigits r.weight ++ '}' :: rest))))) := by
    simp only [renderRecord, List.cons_append, List.append_assoc, List.nil_append]
  rw [htext]
  unfold parseRecord
  rw [expectChars_self, Option.some_bind,
    parseStringBody_escapeList, Option.some_bind]
  rw [show ((r.locator.data, ",\"max_score\":".data ++
      (pyFloatDigits r.max_score ++
        (",\"weight\":".data ++ (pyFloatDigits r.weight ++ '}' :: rest)))).2 : List Char) =
    ",\"max_score\":".data ++ (pyFloatDigits r.max_score ++
      (",\"weight\":".data ++ (pyFloatDigits r.weight ++ '}' :: rest))) from rfl]
  rw [expectChars_self, Option.some_bind]
  rw [parsePyFloat_pyFloatDigits r.max_score _ (by intro c hc; simp at hc; subst hc; decide),
    Option.some_bind]
  rw [show ((r.max_score, ",\"weight\":".data ++
      (pyFloatDigits r.weight ++ '}' :: rest)).2 : List Char) =
    ",\"weight\":".data ++ (pyFloatDigits r.weight ++ '}' :: rest) from rfl]
  rw [expectChars_self, Option.some_bind]
  rw [parsePyFloat_pyFloatDigits r.weight _ (by intro c hc; simp at hc; subst hc; decide),
    Option.some_bind]
  rfl

/-- A rendered record starts with a brace. -/
theorem renderRecord_exists_cons (r : BlockRecord) :
    ∃ t, renderRecord r = '{' :: t := by
  unfold renderRecord
  rw [List.cons_append]
  exact ⟨_, rfl⟩

/-- A rendered nonempty separator list starts with a brace. -/
theorem renderRecordsSep_exists_cons (r : BlockRecord) (rs : List BlockRecord) :
    ∃ t, renderRecordsSep (r :: rs) = '{' :: t := by
  obtain ⟨t, ht⟩ := renderRecord_exists_cons r
  cases rs with
  | nil => exact ⟨t, ht⟩
  | cons r2 rs2 =>
    refine ⟨t ++ ',' :: renderRecordsSep (r2 :: rs2), ?_⟩
    show renderRecord r ++ ',' :: renderRecordsSep (r2 :: rs2) = _
    rw [ht, List.cons_append]

/-- The array-tail parser inverts the comma-separated rendering. -/
theorem parseRecordsAux_render :
    ∀ (l : List BlockRecord) (rest : List Char) (fuel : Nat), l ≠ [] →
      (renderRecordsSep l).length + rest.length + 1 ≤ fuel →
      parseRecordsAux fuel (renderRecordsSep l ++ ']' :: rest) = some (l, rest) := by
  intro l
  induction l with
  | nil => intro rest fuel h _; exact absurd rfl h
  | cons r rs ih =>
    intro rest fuel _ hf
    obtain ⟨g, hg⟩ : ∃ g, fuel = g + 1 := ⟨fuel - 1, by omega⟩
    subst hg
    cases rs with
    | nil =>
      show parseRecordsAux (g + 1) (renderRecord r ++ ']' :: rest) = some ([r], rest)
      unfold parseRecordsAux
      rw [parseRecord_renderRecord r (']' :: rest), Option.some_bind]
      rfl
    | cons r2 rs2 =>
      have hsep : renderRecordsSep (r :: r2 :: rs2) =
          renderRecord r ++ ',' :: renderRecordsSep (r2 :: rs2) := rfl
      rw [hsep, List.append_assoc, List.cons_append]
      unfold parseRecordsAux
      rw [parseRecord_renderRecord r
        (',' :: (renderRecordsSep (r2 :: rs2) ++ ']' :: rest)), Option.some_bind]
      obtain ⟨t, ht⟩ := renderRecord_exists_cons r
      have hfg : (renderRecordsSep (r2 :: rs2)).length + rest.length + 1 ≤ g := by
        rw [hsep] at hf
        rw [List.length_append, ht] at hf
        simp at hf
        omega
      show (parseRecordsAux g (renderRecordsSep (r2 :: rs2) ++ ']' :: rest)).bind
        (fun q => some (r :: q.1, q.2)) = some (r :: r2 :: rs2, rest)
      rw [ih rest g (by simp) hfg, Option.some_bind]

/-- Unfolding of `parseRecords` on a bracketed input. -/
theorem parseRecords_cons_eq (l1 : List Char) :
    parseRecords ('[' :: l1) =
      if l1 = [']'] then some []
      else
        match parseRecordsAux l1.length l1 with
        | some (rs, rest) => if rest = [] then some rs else none
        | none => none := rfl

/-- The array parser inverts the array rendering. -/
theorem parseRecords_renderRecords (l : List BlockRecord) :
    parseRecords (renderRecords l) = some l := by
  cases l with
  | nil => rfl
  | cons r rs =>
    show parseRecords ('[' :: (renderRecordsSep (r :: rs) ++ [']'])) = _
    rw [parseRecords_cons_eq]
    obtain ⟨t, ht⟩ := renderRecordsSep_exists_cons r rs
    have hne : renderRecordsSep (r :: rs) ++ [']'] ≠ [']'] := by
      rw [ht, List.cons_append]
      simp
    rw [if_neg hne]
    have hcond : (renderRecordsSep (r :: rs)).length + ([] : List Char).length + 1 ≤
        (renderRecordsSep (r :: rs) ++ [']']).length := by
      simp
    have haux := parseRecordsAux_render (r :: rs) []
      (renderRecordsSep (r :: rs) ++ [']']).length (by simp) hcond
    rw [show renderRecordsSep (r :: rs) ++ (']' : Char) :: ([] : List Char) =
      renderRecordsSep (r :: rs) ++ [']'] from rfl] at haux
    rw [haux]
    rfl

/-- Claim C6: `from_canonical_json(to_canonical_json(S))` equals `S` as a
set of member Block Records: parsing the canonical JSON of any enumeration
succeeds and returns a duplicate-free collection with exactly the same
members (the round-trip law). -/
theorem fromJson_toJson_roundtrip (l : List BlockRecord) :
    ∃ out, fromJson (toJson l) = some out ∧ out.Nodup ∧
      ∀ x, x ∈ out ↔ x ∈ l := by
  refine ⟨(sortLoc l).dedup, ?_, List.nodup_dedup _, ?_⟩
  · show (parseRecords (toJson l).data).map List.dedup = _
    have hdata : (toJson l).data = renderRecords (sortLoc l) := rfl
    rw [hdata, parseRecords_renderRecords]
    rfl
  · intro x
    rw [List.mem_dedup]
    exact (List.perm_insertionSort locLe l).mem_iff

/-- A SHA-256 digest is always exactly 32 bytes. -/
theorem sha256Bytes_length (msg : List Nat) : (sha256Bytes msg).length = 32 := by
  simp [sha256Bytes, wordBytes]

/-- Length of a base64 encoding: four characters per started 3-byte group. -/
theorem b64Encode_length : ∀ l : List Nat, (b64Encode l).length = 4 * ((l.length + 2) / 3) := by
  intro l
  induction l using b64Encode.induct with
  | case1 => rfl
  | case2 a => simp [b64Encode]
  | case3 a b => simp [b64Encode]
  | case4 a b c rest ih =>
    simp only [b64Encode, List.length_cons, ih]
    omega

/-- Every base64 output character is in the standard alphabet. -/
theorem b64Char_mem (i : Nat) : b64Char i ∈ b64Table := by
  unfold b64Char List.getD
  cases h : b64Table.get? i with
  | some c =>
    simp only [h, Option.getD_some]
    exact List.get?_mem h
  | none =>
    simp only [h, Option.getD_none]
    decide

/-- Characters of a base64 encoding: alphabet characters plus padding. -/
theorem b64Encode_mem : ∀ (l : List Nat), ∀ c ∈ b64Encode l, c ∈ b64Table ∨ c = '=' := by
  intro l
  induction l using b64Encode.induct with
  | case1 => intro c hc; simp [b64Encode] at hc
  | case2 a =>
    intro c hc
    simp only [b64Encode, List.mem_cons, List.not_mem_nil, or_false] at hc
    rcases hc with rfl | rfl | rfl | rfl
    · exact Or.inl (b64Char_mem _)
    · exact Or.inl (b64Char_mem _)
    · exact Or.inr rfl
    · exact Or.inr rfl
  | case3 a b =>
    intro c hc
    simp only [b64Encode, List.mem_cons, List.not_mem_nil, or_false] at hc
    rcases hc with rfl | rfl | rfl | rfl
    · exact Or.inl (b64Char_mem _)
    · exact Or.inl (b64Char_mem _)
    · exact Or.inl (b64Char_mem _)
    · exact Or.inr rfl
  | case4 a b c2 rest ih =>
    intro c hc
    simp only [b64Encode, List.mem_cons] at hc
    rcases hc with rfl | rfl | rfl | rfl | h
    · exact Or.inl (b64Char_mem _)
    · exact Or.inl (b64Char_mem _)
    · exact Or.inl (b64Char_mem _)
    · exact Or.inl (b64Char_mem _)
    · exact ih c h

/-- Claim C7: `to_hash` is the standard-alphabet base64 encoding — no
line wrapping, no algorithm-name prefix — of the raw 32-byte SHA-256
digest of the canonical JSON byte sequence. -/
theorem toHash_base64_sha256_format (l : List BlockRecord) :
    toHash l = String.mk (b64Encode (sha256Bytes (utf8Bytes (toJson l).data))) ∧
    (sha256Bytes (utf8Bytes (toJson l).data)).length = 32 ∧
    (∀ c ∈ (toHash l).data, c ∈ b64Table ∨ c = '=') ∧
    '\n' ∉ (toHash l).data ∧ '$' ∉ (toHash l).data := by
  have hmem : ∀ c ∈ (toHash l).data, c ∈ b64Table ∨ c = '=' := by
    intro c hc
    exact b64Encode_mem _ c hc
  refine ⟨rfl, sha256Bytes_length _, hmem, ?_, ?_⟩
  · intro hc
    rcases hmem _ hc with h | h
    · exact absurd h (by decide)
    · exact absurd h (by decide)
  · intro hc
    rcases hmem _ hc with h | h
    · exact absurd h (by decide)
    · exact absurd h (by decide)

/-- Claim C10: every content hash is exactly 44 characters long — the
base64 encoding of a 32-byte digest — so it always fits the
`hashed = models.CharField(max_length=44, unique=True)` column. -/
theorem toHash_length_44 (l : List BlockRecord) : (toHash l).length = 44 := by
  show (b64Encode (sha256Bytes (utf8Bytes (toJson l).data))).length = 44
  rw [b64Encode_length, sha256Bytes_length]

/-! ## The ORM layer: `VisibleBlocks` store and `PersistentSubsectionGrade`

State-machine model of the Django operations.  The database is a single
state (the visible-blocks table, the grade table, the log).  A Boolean
`race` oracle models a concurrent writer committing the same
`VisibleBlocks` row between this transaction's `get` and its insert:
under repeatable-read isolation the row is invisible to the `get` but
conflicts on insert, which is exactly when Django raises
`IntegrityError` out of `get_or_create`. -/

/-- Python exceptions distinguished by this code's control flow:
`DoesNotExist`, `IntegrityError`, the `ValidationError` that
`full_clean`'s `validate_unique` raises (the spec's `DuplicateKeyError`),
and the `AttributeError` of serializing a non-record member. -/
inductive PyError where
  | doesNotExist
  | integrityError
  | validationError
  | attributeError
deriving DecidableEq

/-- `usage_key`, an opaque block location carrying its course key
(`usage_key.course_key` in the source). -/
structure UsageKey where
  courseKey : String
  blockId : String
deriving DecidableEq

/-- One `VisibleBlocks` row: `blocks_json = models.TextField()`,
`hashed = models.CharField(max_length=44, unique=True)`. -/
structure VBRow where
  blocks_json : String
  hashed : String
deriving DecidableEq

/-- One log record (level and message). -/
structure LogEntry where
  level : String
  msg : String
deriving DecidableEq

/-- One `PersistentSubsectionGrade` row (identity, provenance, scores,
and the `visible_blocks_hash` foreign key; audit timestamps are managed
by `TimeStampedModel` and carry no logic here). -/
structure GradeRow where
  user_id : Int
  course_id : String
  usage_key : UsageKey
  course_version : String
  subtree_edited_date : Int
  earned_all : PyFloat
  possible_all : PyFloat
  earned_graded : PyFloat
  possible_graded : PyFloat
  visible_blocks_id : String
deriving DecidableEq

/-- The database state, plus a counter instrumenting how many times
`create_from_blockrecords` was invoked (used to state that `update`
performs the store resolution twice). -/
structure DBState where
  vbRows : List VBRow
  grades : List GradeRow
  log : List LogEntry
  vbCalls : Nat
deriving DecidableEq

/-- The keyword arguments shared by `create`, `update` and `save_grade`. -/
structure GradeArgs where
  user_id : Int
  usage_key : UsageKey
  course_version : String
  subtree_edited_date : Int
  earned_all : PyFloat
  possible_all : PyFloat
  earned_graded : PyFloat
  possible_graded : PyFloat
  visible_blocks : List BlockRecord
deriving DecidableEq

/-- The `if not isinstance(blocks, BlockRecordSet): blocks =
BlockRecordSet(blocks)` conversion: deduplicate by value.  (`frozenset`
iteration order is unspecified; `List.dedup` fixes one arbitrary
enumeration, which is all the ORM-level claims depend on — order
sensitivity itself is treated in the C1 theorems.) -/
def pyDedup (l : List BlockRecord) : List BlockRecord := l.dedup

/-- `VisibleBlocksQuerySet.create_from_blockrecords` /
`get_or_create(hashed=..., defaults={'blocks_json': ...})`: look the hash
up in the transaction's view; insert when absent; raise `IntegrityError`
when a concurrent writer's invisible row conflicts on insert. -/
def create_from_blockrecords (st : DBState) (blocks : List BlockRecord)
    (race : Bool) : DBState × Except PyError VBRow :=
  let bset := pyDedup blocks
  let h := toHash bset
  let st1 : DBState := { st with vbCalls := st.vbCalls + 1 }
  match st1.vbRows.find? (fun r => decide (r.hashed = h)) with
  | some row => (st1, Except.ok row)
  | none =>
    if race then (st1, Except.error PyError.integrityError)
    else
      let row : VBRow := ⟨toJson bset, h⟩
      ({ st1 with vbRows := st1.vbRows ++ [row] }, Except.ok row)

/-- The `try: ... except IntegrityError: visible_blocks_hash =
visible_blocks.to_hash()` pattern shared by `create` and `update`:
resolve the store entry, falling back to the input set's own hash. -/
def resolveHash (st : DBState) (blocks : List BlockRecord) (race : Bool) :
    DBState × String :=
  match create_from_blockrecords st blocks race with
  | (st1, Except.ok row) => (st1, row.hashed)
  | (st1, Except.error _) => (st1, toHash (pyDedup blocks))

/-- `objects.get(user_id=..., usage_key=...)`. -/
def findGrade (grades : List GradeRow) (uid : Int) (k : UsageKey) :
    Option GradeRow :=
  grades.find? (fun g => decide (g.user_id = uid ∧ g.usage_key = k))

/-- `grade.save()` on a fetched row: overwrite that row in place. -/
def replaceGrade : List GradeRow → Int → UsageKey → GradeRow → List GradeRow
  | [], _, _, _ => []
  | g :: gs, uid, k, g2 =>
    if g.user_id = uid ∧ g.usage_key = k then g2 :: gs
    else g :: replaceGrade gs uid k g2

/-- `PersistentSubsectionGradeQuerySet.create`: resolve the visible-blocks
entry (falling back to the input hash on `IntegrityError`), build the row
with `course_id` derived from the usage key, `full_clean` (whose
`validate_unique` raises `ValidationError` on an existing
`(user_id, course_id, usage_key)` row), then insert. -/
def psg_create (st : DBState) (args : GradeArgs) (race : Bool) :
    DBState × Except PyError GradeRow :=
  let blocks := pyDedup args.visible_blocks
  let p := resolveHash st blocks race
  let grade : GradeRow :=
    { user_id := args.user_id
      course_id := args.usage_key.courseKey
      usage_key := args.usage_key
      course_version := args.course_version
      subtree_edited_date := args.subtree_edited_date
      earned_all := args.earned_all
      possible_all := args.possible_all
      earned_graded := args.earned_graded
      possible_graded := args.possible_graded
      visible_blocks_id := p.2 }
  if p.1.grades.any (fun g => decide (g.user_id = args.user_id ∧
      g.course_id = args.usage_key.courseKey ∧ g.usage_key = args.usage_key)) then
    (p.1, Except.error PyError.validationError)
  else
    ({ p.1 with grades := p.1.grades ++ [grade] }, Except.ok grade)

/-- `PersistentSubsectionGrade.read`. -/
def psg_read (st : DBState) (uid : Int) (k : UsageKey) : Except PyError GradeRow :=
  match findGrade st.grades uid k with
  | some g => Except.ok g
  | none => Except.error PyError.doesNotExist

/-- The `log.error` message of the unrecoverable race in `update`. -/
def raceMsg : LogEntry :=
  ⟨"error",
   "Race condition hit in robust grading data model. Unrecoverable repeatable-read issue."⟩

/-- `PersistentSubsectionGrade.update`: fetch the existing row (raising
`DoesNotExist` when absent), resolve the visible-blocks entry twice — the
first resolution's hash is kept, the second is the race detector: on its
`IntegrityError` the error is logged and re-raised — then overwrite the
row's mutable fields and save. -/
def psg_update (st : DBState) (args : GradeArgs) (race1 race2 : Bool) :
    DBState × Except PyError GradeRow :=
  match findGrade st.grades args.user_id args.usage_key with
  | none => (st, Except.error PyError.doesNotExist)
  | some grade =>
    let blocks := pyDedup args.visible_blocks
    let p := resolveHash st blocks race1
    match create_from_blockrecords p.1 blocks race2 with
    | (st2, Except.error _) =>
      ({ st2 with log := st2.log ++ [raceMsg] }, Except.error PyError.integrityError)
    | (st2, Except.ok _) =>
      let grade2 : GradeRow :=
        { grade with
            course_version := args.course_version
            subtree_edited_date := args.subtree_edited_date
            earned_all := args.earned_all
            possible_all := args.possible_all
            earned_graded := args.earned_graded
            possible_graded := args.possible_graded
            visible_blocks_id := p.2 }
      ({ st2 with grades := replaceGrade st2.grades args.user_id args.usage_key grade2 },
        Except.ok grade2)

/-- `PersistentSubsectionGrade.save_grade`: try `update`; on
`cls.DoesNotExist` (and only then) fall back to `create` with the same
arguments. -/
def save_grade (st : DBState) (args : GradeArgs) (race1 race2 raceC : Bool) :
    DBState × Except PyError GradeRow :=
  match psg_update st args race1 race2 with
  | (st1, Except.error PyError.doesNotExist) => psg_create st1 args raceC
  | other => other

/-- A successful store resolution always hands back a row carrying the
input set's own content hash (the `get_or_create` key). -/
theorem cfb_ok_hashed {st : DBState} {b : List BlockRecord} {race : Bool}
    {st1 : DBState} {row : VBRow}
    (h : create_from_blockrecords st b race = (st1, Except.ok row)) :
    row.hashed = toHash (pyDedup b) := by
  simp only [create_from_blockrecords] at h
  cases hf : List.find? (fun r => decide (r.hashed = toHash (pyDedup b))) st.vbRows with
  | some r0 =>
    rw [hf] at h
    have h2 := congrArg Prod.snd h
    simp only [] at h2
    rw [← Except.ok.inj h2]
    have hp := List.find?_some hf
    simp only [decide_eq_true_eq] at hp
    exact hp
  | none =>
    rw [hf] at h
    cases race with
    | true => simp at h
    | false =>
      have h2 := congrArg Prod.snd h
      simp only [] at h2
      rw [← Except.ok.inj h2]

/-- A store resolution touches neither the grade table nor the log, and
bumps the call counter exactly once. -/
theorem cfb_state {st : DBState} {b : List BlockRecord} {race : Bool}
    {st1 : DBState} {res : Except PyError VBRow}
    (h : create_from_blockrecords st b race = (st1, res)) :
    st1.grades = st.grades ∧ st1.log = st.log ∧ st1.vbCalls = st.vbCalls + 1 := by
  simp only [create_from_blockrecords] at h
  cases hf : List.find? (fun r => decide (r.hashed = toHash (pyDedup b))) st.vbRows with
  | some r0 =>
    rw [hf] at h
    have h1 := congrArg Prod.fst h
    simp only [] at h1
    rw [← h1]
    exact ⟨rfl, rfl, rfl⟩
  | none =>
    rw [hf] at h
    cases race with
    | true =>
      simp only [if_true] at h
      have h1 := congrArg Prod.fst h
      simp only [] at h1
      rw [← h1]
      exact ⟨rfl, rfl, rfl⟩
    | false =>
      simp only [if_false] at h
      have h1 := congrArg Prod.fst h
      simp only [] at h1
      rw [← h1]
      exact ⟨rfl, rfl, rfl⟩

/-- Without a concurrent writer, a store resolution always succeeds. -/
theorem cfb_norace (st : DBState) (b : List BlockRecord) :
    ∃ st1 row, create_from_blockrecords st b false = (st1, Except.ok row) := by
  simp only [create_from_blockrecords]
  cases hf : List.find? (fun r => decide (r.hashed = toHash (pyDedup b))) st.vbRows with
  | some r0 => exact ⟨_, r0, rfl⟩
  | none => exact ⟨_, _, rfl⟩

/-- Resolution of a hash absent from the transaction's view, with no
concurrent writer: the row is inserted and returned. -/
theorem cfb_insert (st : DBState) (b : List BlockRecord)
    (habsent : ∀ r ∈ st.vbRows, r.hashed ≠ toHash (pyDedup b)) :
    create_from_blockrecords st b false =
      ({ st with
          vbCalls := st.vbCalls + 1
          vbRows := st.vbRows ++ [⟨toJson (pyDedup b), toHash (pyDedup b)⟩] },
        Except.ok ⟨toJson (pyDedup b), toHash (pyDedup b)⟩) := by
  have hf : List.find? (fun r => decide (r.hashed = toHash (pyDedup b))) st.vbRows = none := by
    rw [List.find?_eq_none]
    intro r hr
    simpa using habsent r hr
  simp only [create_from_blockrecords]
  rw [hf]
  simp

/-- Resolution of an absent hash while a concurrent writer commits the
same row: `IntegrityError`, and the transaction's view is unchanged. -/
theorem cfb_race_absent (st : DBState) (b : List BlockRecord)
    (habsent : ∀ r ∈ st.vbRows, r.hashed ≠ toHash (pyDedup b)) :
    create_from_blockrecords st b true =
      ({ st with vbCalls := st.vbCalls + 1 }, Except.error PyError.integrityError) := by
  have hf : List.find? (fun r => decide (r.hashed = toHash (pyDedup b))) st.vbRows = none := by
    rw [List.find?_eq_none]
    intro r hr
    simpa using habsent r hr
  simp only [create_from_blockrecords]
  rw [hf]
  simp

/-- Resolution of a hash already present in the view: the existing row
is returned and the store is unchanged. -/
theorem cfb_found (st : DBState) (b : List BlockRecord) (race : Bool) (row : VBRow)
    (hf : List.find? (fun r => decide (r.hashed = toHash (pyDedup b))) st.vbRows = some row) :
    create_from_blockrecords st b race =
      ({ st with vbCalls := st.vbCalls + 1 }, Except.ok row) := by
  simp only [create_from_blockrecords]
  rw [hf]

/-- The hash handed on by the try/except resolution pattern is always the
input set's own hash — on the success path it is the returned row's key,
on the `IntegrityError` path it is computed directly from the input,
without re-reading the stored row (the result does not depend on the
store contents at all). -/
theorem resolveHash_hash (st : DBState) (b : List BlockRecord) (race : Bool) :
    (resolveHash st b race).2 = toHash (pyDedup b) := by
  unfold resolveHash
  cases hc : create_from_blockrecords st b race with
  | mk st1 res =>
    cases res with
    | ok row =>
      simp only []
      exact cfb_ok_hashed hc
    | error e => simp only []

/-- The try/except resolution touches neither grades nor log and bumps
the call counter once. -/
theorem resolveHash_state (st : DBState) (b : List BlockRecord) (race : Bool) :
    (resolveHash st b race).1.grades = st.grades ∧
    (resolveHash st b race).1.log = st.log ∧
    (resolveHash st b race).1.vbCalls = st.vbCalls + 1 := by
  unfold resolveHash
  cases hc : create_from_blockrecords st b race with
  | mk st1 res =>
    cases res with
    | ok row => simpa using cfb_state hc
    | error e => simpa using cfb_state hc

/-- Claim C2: on an existing grade row, `update` performs the Visibility
Store resolution twice in sequence for the same input (the instrumented
call counter rises by exactly two), and the hash value written into the
updated row's `visible_blocks_id` reference equals the hash of the row
produced by the second resolution. -/
theorem update_resolves_twice (st : DBState) (args : GradeArgs) (race1 : Bool)
    (g : GradeRow)
    (hfind : findGrade st.grades args.user_id args.usage_key = some g) :
    ∃ st2 row2 stf grade2,
      create_from_blockrecords (resolveHash st (pyDedup args.visible_blocks) race1).1
        (pyDedup args.visible_blocks) false = (st2, Except.ok row2) ∧
      psg_update st args race1 false = (stf, Except.ok grade2) ∧
      grade2.visible_blocks_id = row2.hashed ∧
      stf.vbCalls = st.vbCalls + 2 := by
  obtain ⟨st2, row2, hcfb⟩ :=
    cfb_norace (resolveHash st (pyDedup args.visible_blocks) race1).1
      (pyDedup args.visible_blocks)
  have hupd : psg_update st args race1 false =
      ({ st2 with grades := (replaceGrade st2.grades args.user_id args.usage_key
          { g with
              course_version := args.course_version
              subtree_edited_date := args.subtree_edited_date
              earned_all := args.earned_all
              possible_all := args.possible_all
              earned_graded := args.earned_graded
              possible_graded := args.possible_graded
              visible_blocks_id := (resolveHash st (pyDedup args.visible_blocks) race1).2 }) },
        Except.ok { g with
              course_version := args.course_version
              subtree_edited_date := args.subtree_edited_date
              earned_all := args.earned_all
              possible_all := args.possible_all
              earned_graded := args.earned_graded
              possible_graded := args.possible_graded
              visible_blocks_id := (resolveHash st (pyDedup args.visible_blocks) race1).2 }) := by
    simp only [psg_update, hfind, hcfb]
  refine ⟨st2, row2, _, _, hcfb, hupd, ?_, ?_⟩
  · show (resolveHash st (pyDedup args.visible_blocks) race1).2 = row2.hashed
    rw [resolveHash_hash st (pyDedup args.visible_blocks) race1, cfb_ok_hashed hcfb]
  · show st2.vbCalls = st.vbCalls + 2
    have h1 := (resolveHash_state st (pyDedup args.visible_blocks) race1).2.2
    have h2 := (cfb_state hcfb).2.2
    omega

/-- Claim C3: when the second resolution inside `update` hits the
uniqueness conflict (the hash is not in this transaction's view and a
concurrent writer races both attempts), `update` logs the race at error
severity, re-raises the `IntegrityError`, and the grade table is left
completely unchanged — no score, provenance or reference field of any
persisted row is modified. -/
theorem update_race_logs_and_reraises (st : DBState) (args : GradeArgs)
    (g : GradeRow)
    (hfind : findGrade st.grades args.user_id args.usage_key = some g)
    (habsent : ∀ r ∈ st.vbRows, r.hashed ≠ toHash (pyDedup args.visible_blocks)) :
    ∃ stf, psg_update st args true true = (stf, Except.error PyError.integrityError) ∧
      stf.grades = st.grades ∧ stf.log = st.log ++ [raceMsg] := by
  have habsent2 : ∀ r ∈ st.vbRows, r.hashed ≠ toHash (pyDedup (pyDedup args.visible_blocks)) := by
    intro r hr
    rw [pyDedup, pyDedup, List.dedup_idem]
    exact habsent r hr
  have hres : resolveHash st (pyDedup args.visible_blocks) true =
      ({ st with vbCalls := st.vbCalls + 1 }, toHash (pyDedup (pyDedup args.visible_blocks))) := by
    unfold resolveHash
    rw [cfb_race_absent st (pyDedup args.visible_blocks) habsent2]
  have habsent3 : ∀ r ∈ ({ st with vbCalls := st.vbCalls + 1 } : DBState).vbRows,
      r.hashed ≠ toHash (pyDedup (pyDedup args.visible_blocks)) := habsent2
  have hcfb2 := cfb_race_absent ({ st with vbCalls := st.vbCalls + 1 } : DBState)
    (pyDedup args.visible_blocks) habsent3
  refine ⟨{ st with vbCalls := st.vbCalls + 2, log := st.log ++ [raceMsg] }, ?_, rfl, rfl⟩
  simp only [psg_update, hfind, hres, hcfb2]

/-- Claim C5: for every `(user_id, usage_key)` pair, `update` on an
absent key fails with `DoesNotExist` leaving the state untouched (it is
not converted into a create), and `create` on a present key fails with
the duplicate-key `ValidationError` leaving the grade table untouched
(it is not converted into an update). -/
theorem update_absent_create_present_fail (st : DBState) (args : GradeArgs)
    (r1 r2 rc : Bool) :
    (findGrade st.grades args.user_id args.usage_key = none →
      psg_update st args r1 r2 = (st, Except.error PyError.doesNotExist)) ∧
    ((∃ g ∈ st.grades, g.user_id = args.user_id ∧
        g.course_id = args.usage_key.courseKey ∧ g.usage_key = args.usage_key) →
      ∃ st2, psg_create st args rc = (st2, Except.error PyError.validationError) ∧
        st2.grades = st.grades) := by
  constructor
  · intro habs
    simp only [psg_update, habs]
  · intro ⟨g, hg, hprop⟩
    have hgr := (resolveHash_state st (pyDedup args.visible_blocks) rc).1
    have hany : (resolveHash st (pyDedup args.visible_blocks) rc).1.grades.any
        (fun g => decide (g.user_id = args.user_id ∧
          g.course_id = args.usage_key.courseKey ∧ g.usage_key = args.usage_key)) = true := by
      rw [hgr, List.any_eq_true]
      exact ⟨g, hg, by simpa using hprop⟩
    refine ⟨_, ?_, hgr⟩
    simp only [psg_create, hany, if_true]

/-- `find?` skips a prefix with no matches. -/
theorem find?_append_of_none {α : Type} (p : α → Bool) :
    ∀ (l1 l2 : List α), l1.find? p = none →
      (l1 ++ l2).find? p = l2.find? p := by
  intro l1
  induction l1 with
  | nil => intro l2 _; rfl
  | cons a l1 ih =>
    intro l2 h
    rw [List.find?_eq_none] at h
    have ha : p a = false := by
      have := h a (List.mem_cons_self a l1)
      simpa using this
    rw [List.cons_append, List.find?_cons_of_neg _ (by simp [ha]), ih]
    rw [List.find?_eq_none]
    intro x hx
    exact h x (List.mem_cons_of_mem a hx)

/-- Claim C4 (amended): with no two distinct records sharing a locator,
`get_or_create` is idempotent — two sequential resolutions from
value-equal Visibility Sets persist exactly one Visibility Store Entry
and return the very same row, hence the same content hash; and on the
unique-key-conflict path the reference hash handed on is computed from
the input set's own hash, independently of the store contents (the
quantification over an arbitrary store is the no-re-read property). -/
theorem get_or_create_idempotent (st : DBState) (b1 b2 : List BlockRecord)
    (race : Bool)
    (hsame : (∀ x ∈ b1, x ∈ b2) ∧ ∀ x ∈ b2, x ∈ b1)
    (hinj : ∀ x ∈ b1, ∀ y ∈ b1, x.locator = y.locator → x = y)
    (habsent : ∀ r ∈ st.vbRows, r.hashed ≠ toHash (pyDedup b1)) :
    (∃ st1 row,
      create_from_blockrecords st b1 false = (st1, Except.ok row) ∧
      st1.vbRows = st.vbRows ++ [row] ∧
      ∃ st2, create_from_blockrecords st1 b2 false = (st2, Except.ok row) ∧
        st2.vbRows = st1.vbRows) ∧
    (resolveHash st b1 race).2 = toHash (pyDedup b1) := by
  have henum1 : isEnumOf (pyDedup b1) b1 :=
    ⟨List.nodup_dedup b1, fun x hx => List.mem_dedup.mp hx,
     fun x hx => List.mem_dedup.mpr hx⟩
  have henum2 : isEnumOf (pyDedup b2) b2 :=
    ⟨List.nodup_dedup b2, fun x hx => List.mem_dedup.mp hx,
     fun x hx => List.mem_dedup.mpr hx⟩
  have hinj2 : ∀ x ∈ b2, ∀ y ∈ b2, x.locator = y.locator → x = y :=
    fun x hx y hy => hinj x (hsame.2 x hx) y (hsame.2 y hy)
  have hhash : toHash (pyDedup b2) = toHash (pyDedup b1) :=
    (toJson_toHash_of_same_records_distinct_locators b2 b1 (pyDedup b2) (pyDedup b1)
      henum2 henum1 ⟨hsame.2, hsame.1⟩ hinj2).2
  constructor
  · have h1 := cfb_insert st b1 habsent
    refine ⟨_, _, h1, rfl, ?_⟩
    have hrow : (⟨toJson (pyDedup b1), toHash (pyDedup b1)⟩ : VBRow).hashed =
        toHash (pyDedup b2) := by
      rw [hhash]
    have hf2 : List.find? (fun r => decide (r.hashed = toHash (pyDedup b2)))
        (st.vbRows ++ [⟨toJson (pyDedup b1), toHash (pyDedup b1)⟩]) =
        some ⟨toJson (pyDedup b1), toHash (pyDedup b1)⟩ := by
      rw [find?_append_of_none]
      · rw [List.find?_cons_of_pos]
        simp [hhash]
      · rw [List.find?_eq_none]
        intro r hr
        simp only [decide_eq_true_eq]
        rw [hhash]
        exact habsent r hr
    have h2 := cfb_found ({ st with
        vbCalls := st.vbCalls + 1
        vbRows := st.vbRows ++ [⟨toJson (pyDedup b1), toHash (pyDedup b1)⟩] } : DBState)
      b2 false ⟨toJson (pyDedup b1), toHash (pyDedup b1)⟩ hf2
    exact ⟨_, h2, rfl⟩
  · exact resolveHash_hash st b1 race

/-- `objects.get` skips rows of other keys. -/
theorem findGrade_append_of_none (l1 l2 : List GradeRow) (uid : Int) (k : UsageKey)
    (h : findGrade l1 uid k = none) :
    findGrade (l1 ++ l2) uid k = findGrade l2 uid k :=
  find?_append_of_none _ l1 l2 h

/-- `objects.get` finds a matching head row. -/
theorem findGrade_cons_self (g : GradeRow) (l : List GradeRow) (uid : Int)
    (k : UsageKey) (hg : g.user_id = uid ∧ g.usage_key = k) :
    findGrade (g :: l) uid k = some g := by
  unfold findGrade
  rw [List.find?_cons_of_pos]
  simpa using hg

/-- Saving a fetched row back rewrites exactly that row. -/
theorem replaceGrade_append (l1 : List GradeRow) (g1 g2 : GradeRow) (uid : Int)
    (k : UsageKey) (h : findGrade l1 uid k = none)
    (hg : g1.user_id = uid ∧ g1.usage_key = k) :
    replaceGrade (l1 ++ [g1]) uid k g2 = l1 ++ [g2] := by
  induction l1 with
  | nil =>
    simp only [List.nil_append, replaceGrade, if_pos hg]
  | cons a l1 ih =>
    unfold findGrade at h
    rw [List.find?_eq_none] at h
    have ha : ¬(a.user_id = uid ∧ a.usage_key = k) := by
      have := h a (List.mem_cons_self a l1)
      simpa using this
    have hl1 : findGrade l1 uid k = none := by
      unfold findGrade
      rw [List.find?_eq_none]
      intro x hx
      exact h x (List.mem_cons_of_mem a hx)
    simp only [List.cons_append, replaceGrade, if_neg ha, List.append_eq, ih hl1]

/-- `create` on an absent key inserts a row carrying exactly the given
arguments (and the resolved visible-blocks hash). -/
theorem psg_create_absent (st : DBState) (args : GradeArgs) (race : Bool)
    (habs : findGrade st.grades args.user_id args.usage_key = none) :
    psg_create st args race =
      ({ (resolveHash st (pyDedup args.visible_blocks) race).1 with
          grades := (resolveHash st (pyDedup args.visible_blocks) race).1.grades ++
            [{ user_id := args.user_id
               course_id := args.usage_key.courseKey
               usage_key := args.usage_key
               course_version := args.course_version
               subtree_edited_date := args.subtree_edited_date
               earned_all := args.earned_all
               possible_all := args.possible_all
               earned_graded := args.earned_graded
               possible_graded := args.possible_graded
               visible_blocks_id := (resolveHash st (pyDedup args.visible_blocks) race).2 }] },
        Except.ok
          { user_id := args.user_id
            course_id := args.usage_key.courseKey
            usage_key := args.usage_key
            course_version := args.course_version
            subtree_edited_date := args.subtree_edited_date
            earned_all := args.earned_all
            possible_all := args.possible_all
            earned_graded := args.earned_graded
            possible_graded := args.possible_graded
            visible_blocks_id := (resolveHash st (pyDedup args.visible_blocks) race).2 }) := by
  have hgr := (resolveHash_state st (pyDedup args.visible_blocks) race).1
  have hany : ((resolveHash st (pyDedup args.visible_blocks) race).1.grades.any
      (fun g => decide (g.user_id = args.user_id ∧
        g.course_id = args.usage_key.courseKey ∧ g.usage_key = args.usage_key))) = false := by
    rw [hgr, List.any_eq_false]
    unfold findGrade at habs
    rw [List.find?_eq_none] at habs
    intro g hg
    have := habs g hg
    simp only [decide_eq_true_eq] at this ⊢
    intro ⟨hu, _, hk⟩
    exact this ⟨hu, hk⟩
  simp only [psg_create]
  rw [if_neg (by rw [hany]; simp)]

/-- `update` on a present key (no races): the fetched row is overwritten
in place with the new scores, provenance and reference. -/
theorem psg_update_success (st : DBState) (args : GradeArgs) (g : GradeRow)
    (hfind : findGrade st.grades args.user_id args.usage_key = some g) :
    ∃ stf g2,
      psg_update st args false false = (stf, Except.ok g2) ∧
      stf.grades = replaceGrade st.grades args.user_id args.usage_key g2 ∧
      g2.user_id = g.user_id ∧ g2.usage_key = g.usage_key ∧
      g2.earned_all = args.earned_all ∧ g2.possible_all = args.possible_all ∧
      g2.earned_graded = args.earned_graded ∧ g2.possible_graded = args.possible_graded ∧
      g2.course_version = args.course_version ∧
      g2.subtree_edited_date = args.subtree_edited_date := by
  obtain ⟨st2, row2, hcfb⟩ :=
    cfb_norace (resolveHash st (pyDedup args.visible_blocks) false).1
      (pyDedup args.visible_blocks)
  have hupd : psg_update st args false false =
      ({ st2 with grades := (replaceGrade st2.grades args.user_id args.usage_key
          { g with
              course_version := args.course_version
              subtree_edited_date := args.subtree_edited_date
              earned_all := args.earned_all
              possible_all := args.possible_all
              earned_graded := args.earned_graded
              possible_graded := args.possible_graded
              visible_blocks_id := (resolveHash st (pyDedup args.visible_blocks) false).2 }) },
        Except.ok { g with
              course_version := args.course_version
              subtree_edited_date := args.subtree_edited_date
              earned_all := args.earned_all
              possible_all := args.possible_all
              earned_graded := args.earned_graded
              possible_graded := args.possible_graded
              visible_blocks_id := (resolveHash st (pyDedup args.visible_blocks) false).2 }) := by
    simp only [psg_update, hfind, hcfb]
  have hgrades : st2.grades = st.grades := by
    have ha := (cfb_state hcfb).1
    have hb := (resolveHash_state st (pyDedup args.visible_blocks) false).1
    rw [ha, hb]
  refine ⟨_, _, hupd, ?_, rfl, rfl, rfl, rfl, rfl, rfl, rfl, rfl⟩
  show replaceGrade st2.grades args.user_id args.usage_key _ =
    replaceGrade st.grades args.user_id args.usage_key _
  rw [hgrades]

/-- `save_grade` passes a successful `update` straight through. -/
theorem save_grade_of_update_ok (st : DBState) (args : GradeArgs)
    (r1 r2 rc : Bool) (st1 : DBState) (g : GradeRow)
    (h : psg_update st args r1 r2 = (st1, Except.ok g)) :
    save_grade st args r1 r2 rc = (st1, Except.ok g) := by
  unfold save_grade
  rw [h]

/-- Claim C8: `save_grade` attempts `update` first and falls back to
`create` with the same arguments exactly when `update` raises
`DoesNotExist` (any other error propagates unchanged); consequently a
`save_grade` on an absent key creates the row and a second `save_grade`
for the same key with different scores updates it in place, after which
`read` returns only the latest values. -/
theorem saveGrade_update_then_create (st : DBState) (args args2 : GradeArgs)
    (r1 r2 rc : Bool) :
    (findGrade st.grades args.user_id args.usage_key = none →
      save_grade st args r1 r2 rc = psg_create st args rc) ∧
    (∀ (st1 : DBState) (e : PyError), e ≠ PyError.doesNotExist →
      psg_update st args r1 r2 = (st1, Except.error e) →
      save_grade st args r1 r2 rc = (st1, Except.error e)) ∧
    (findGrade st.grades args.user_id args.usage_key = none →
      args2.user_id = args.user_id → args2.usage_key = args.usage_key →
      ∃ gfinal,
        save_grade st args false false false = psg_create st args false ∧
        save_grade (save_grade st args false false false).1 args2 false false false =
          psg_update (save_grade st args false false false).1 args2 false false ∧
        psg_read (save_grade (save_grade st args false false false).1
            args2 false false false).1 args.user_id args.usage_key =
          Except.ok gfinal ∧
        gfinal.earned_all = args2.earned_all ∧
        gfinal.possible_all = args2.possible_all ∧
        gfinal.earned_graded = args2.earned_graded ∧
        gfinal.possible_graded = args2.possible_graded ∧
        gfinal.course_version = args2.course_version ∧
        gfinal.subtree_edited_date = args2.subtree_edited_date) := by
  refine ⟨?_, ?_, ?_⟩
  · intro habs
    simp only [save_grade, psg_update, habs]
  · intro st1 e hne hupd
    unfold save_grade
    rw [hupd]
    cases e with
    | doesNotExist => exact absurd rfl hne
    | integrityError => rfl
    | validationError => rfl
    | attributeError => rfl
  · intro habs h2u h2k
    have hsave1 : save_grade st args false false false = psg_create st args false := by
      simp only [save_grade, psg_update, habs]
    have hcreate := psg_create_absent st args false habs
    have hgr := (resolveHash_state st (pyDedup args.visible_blocks) false).1
    -- the row created by the first save
    have hs1grades : (save_grade st args false false false).1.grades =
        st.grades ++
          [{ user_id := args.user_id
             course_id := args.usage_key.courseKey
             usage_key := args.usage_key
             course_version := args.course_version
             subtree_edited_date := args.subtree_edited_date
             earned_all := args.earned_all
             possible_all := args.possible_all
             earned_graded := args.earned_graded
             possible_graded := args.possible_graded
             visible_blocks_id := (resolveHash st (pyDedup args.visible_blocks) false).2 }] := by
      rw [hsave1, hcreate]
      show (resolveHash st (pyDedup args.visible_blocks) false).1.grades ++ _ = _
      rw [hgr]
    have hfind1 : findGrade (save_grade st args false false false).1.grades
        args2.user_id args2.usage_key =
        some { user_id := args.user_id
               course_id := args.usage_key.courseKey
               usage_key := args.usage_key
               course_version := args.course_version
               subtree_edited_date := args.subtree_edited_date
               earned_all := args.earned_all
               possible_all := args.possible_all
               earned_graded := args.earned_graded
               possible_graded := args.possible_graded
               visible_blocks_id := (resolveHash st (pyDedup args.visible_blocks) false).2 } := by
      rw [hs1grades, h2u, h2k,
        findGrade_append_of_none st.grades _ args.user_id args.usage_key habs]
      exact findGrade_cons_self _ _ _ _ ⟨rfl, rfl⟩
    obtain ⟨stf, g2, hupd2, hstf, hu2, hk2, he1, he2, he3, he4, he5, he6⟩ :=
      psg_update_success (save_grade st args false false false).1 args2 _ hfind1
    have hsave2 : save_grade (save_grade st args false false false).1 args2
        false false false =
        psg_update (save_grade st args false false false).1 args2 false false := by
      rw [save_grade_of_update_ok _ _ _ _ _ _ _ hupd2, hupd2]
    have hstfgrades : stf.grades = st.grades ++ [g2] := by
      rw [hstf, hs1grades, h2u, h2k]
      exact replaceGrade_append st.grades _ g2 args.user_id args.usage_key habs
        ⟨rfl, rfl⟩
    refine ⟨g2, hsave1, hsave2, ?_, he1, he2, he3, he4, he5, he6⟩
    rw [hsave2, hupd2]
    show psg_read stf args.user_id args.usage_key = Except.ok g2
    unfold psg_read
    rw [hstfgrades, findGrade_append_of_none st.grades _ args.user_id args.usage_key habs,
      findGrade_cons_self _ _ _ _ ⟨by rw [hu2], by rw [hk2]⟩]

/-! ## Visibility Set construction over arbitrary (possibly malformed)
members (claim C9)

`BlockRecordSet(...)` is a `frozenset` subclass: its construction accepts
any iterable of hashable Python objects and performs no validation
whatsoever.  A malformed member only blows up later, when `to_json`'s
`sorted(self, key=attrgetter('locator'))` raises `AttributeError`. -/

/-- A member of the iterable handed to `BlockRecordSet(...)`: either a
proper `BlockRecord`, or any other hashable object (identified here by
its repr), which a well-formed record never equals. -/
inductive PyVal where
  | record (r : BlockRecord)
  | other (s : String)
deriving DecidableEq

/-- `BlockRecordSet(iterable)` construction itself: `frozenset` semantics
— deduplicate by value, accept anything hashable, never raise.  The
`Except` result type records that the construction has no failure path. -/
def constructAny (l : List PyVal) : Except PyError (List PyVal) :=
  Except.ok l.dedup

/-- `to_json` on such a set: `sorted(self, key=attrgetter('locator'))`
raises `AttributeError` as soon as any member is not a record; otherwise
it serializes the records as `to_json` does. -/
def toJsonAny (l : List PyVal) : Except PyError String :=
  if l.dedup.all (fun v => match v with | PyVal.record _ => true | PyVal.other _ => false) then
    Except.ok (toJson (l.dedup.filterMap
      (fun v => match v with | PyVal.record r => some r | PyVal.other _ => none)))
  else Except.error PyError.attributeError

/-- Claim C9 (amended): constructing a Visibility Set from an iterable
deduplicates by value and never fails — no validation happens at
construction time; a malformed member causes a failure only later, when
the set is serialized. -/
theorem blockRecordSet_construct_dedups_no_validation :
    (∀ l : List PyVal, ∃ out, constructAny l = Except.ok out ∧ out.Nodup ∧
      ∀ x, x ∈ out ↔ x ∈ l) ∧
    (∀ (l : List PyVal) (s : String), PyVal.other s ∈ l →
      toJsonAny l = Except.error PyError.attributeError) := by
  constructor
  · intro l
    exact ⟨l.dedup, rfl, List.nodup_dedup l, fun x => List.mem_dedup⟩
  · intro l s hmem
    have hall : l.dedup.all
        (fun v => match v with | PyVal.record _ => true | PyVal.other _ => false) = false := by
      rw [List.all_eq_false]
      exact ⟨PyVal.other s, List.mem_dedup.mpr hmem, by simp⟩
    unfold toJsonAny
    rw [if_neg (by rw [hall]; simp)]

/-- Claim C9 (counterexample): the claim says construction fails with
`InvalidInputError` when the input holds a malformed record; in the code
there is no validation at all — construction of a set from a single
malformed member succeeds and returns that member. -/
theorem blockRecordSet_accepts_malformed :
    constructAny [PyVal.other "not a BlockRecord"] =
      Except.ok [PyVal.other "not a BlockRecord"] := rfl

/-- Witness for the amended claim C9. -/
theorem blockRecordSet_construct_witness :
    (∃ out, constructAny [PyVal.other "x", PyVal.other "x"] = Except.ok out ∧
      out.Nodup ∧ ∀ x, x ∈ out ↔ x ∈ [PyVal.other "x", PyVal.other "x"]) ∧
    toJsonAny [PyVal.record recB1, PyVal.other "x"] =
      Except.error PyError.attributeError :=
  ⟨blockRecordSet_construct_dedups_no_validation.1 [PyVal.other "x", PyVal.other "x"],
   blockRecordSet_construct_dedups_no_validation.2 [PyVal.record recB1, PyVal.other "x"]
     "x" (by decide)⟩

/-- A concrete subsection key for the witnesses. -/
def ukW : UsageKey := ⟨"course-v1:edX+DemoX+2015", "seq1"⟩

/-- Concrete grade arguments (first computation). -/
def argsW : GradeArgs := ⟨42, ukW, "v1", 100, pyOne, pyTen, pyOne, pyTen, [recB2, recB1]⟩

/-- Concrete grade arguments for the same key with different scores. -/
def argsW2 : GradeArgs := ⟨42, ukW, "v2", 200, pyTwo, pyTen, pyTwo, pyTen, [recB1, recB2]⟩

/-- A pre-existing grade row for that key. -/
def gradeW : GradeRow :=
  ⟨42, "course-v1:edX+DemoX+2015", ukW, "v0", 50, pyOne, pyTen, pyOne, pyTen, "oldhash"⟩

/-- The empty database. -/
def stEmpty : DBState := ⟨[], [], [], 0⟩

/-- A database holding exactly the grade row `gradeW`. -/
def stWith : DBState := ⟨[], [gradeW], [], 0⟩

/-- Witness for claim C2, at a concrete state and arguments. -/
theorem update_resolves_twice_witness :
    ∃ st2 row2 stf grade2,
      create_from_blockrecords (resolveHash stWith (pyDedup argsW.visible_blocks) false).1
        (pyDedup argsW.visible_blocks) false = (st2, Except.ok row2) ∧
      psg_update stWith argsW false false = (stf, Except.ok grade2) ∧
      grade2.visible_blocks_id = row2.hashed ∧
      stf.vbCalls = stWith.vbCalls + 2 :=
  update_resolves_twice stWith argsW false gradeW (by decide)

/-- Witness for claim C3, at a concrete state and arguments. -/
theorem update_race_logs_witness :
    ∃ stf, psg_update stWith argsW true true = (stf, Except.error PyError.integrityError) ∧
      stf.grades = stWith.grades ∧ stf.log = stWith.log ++ [raceMsg] :=
  update_race_logs_and_reraises stWith argsW gradeW (by decide) (by decide)

/-- Witness for the amended claim C4, at concrete sets (the second built
from an input with a duplicate record). -/
theorem get_or_create_idempotent_witness :
    (∃ st1 row,
      create_from_blockrecords stEmpty [recB2, recB1] false = (st1, Except.ok row) ∧
      st1.vbRows = stEmpty.vbRows ++ [row] ∧
      ∃ st2, create_from_blockrecords st1 [recB1, recB2, recB1] false = (st2, Except.ok row) ∧
        st2.vbRows = st1.vbRows) ∧
    (resolveHash stEmpty [recB2, recB1] false).2 = toHash (pyDedup [recB2, recB1]) :=
  get_or_create_idempotent stEmpty [recB2, recB1] [recB1, recB2, recB1] false
    (by decide) (by decide) (by decide)

/-- Witness for claim C5, at a concrete state and arguments. -/
theorem update_absent_create_present_witness :
    psg_update stEmpty argsW false false = (stEmpty, Except.error PyError.doesNotExist) ∧
    ∃ st2, psg_create stWith argsW false = (st2, Except.error PyError.validationError) ∧
      st2.grades = stWith.grades :=
  ⟨(update_absent_create_present_fail stEmpty argsW false false false).1 (by decide),
   (update_absent_create_present_fail stWith argsW false false false).2
     ⟨gradeW, by decide, by decide⟩⟩

/-- Witness for claim C8, at a concrete state and arguments: the
fallback-to-create case, the error-propagation case, and the
create-then-update-then-read scenario. -/
theorem saveGrade_update_then_create_witness :
    save_grade stEmpty argsW false false false = psg_create stEmpty argsW false ∧
    save_grade stWith argsW true true false =
      (⟨[], [gradeW], [raceMsg], 2⟩, Except.error PyError.integrityError) ∧
    ∃ gfinal,
      save_grade stEmpty argsW false false false = psg_create stEmpty argsW false ∧
      save_grade (save_grade stEmpty argsW false false false).1 argsW2 false false false =
        psg_update (save_grade stEmpty argsW false false false).1 argsW2 false false ∧
      psg_read (save_grade (save_grade stEmpty argsW false false false).1
          argsW2 false false false).1 argsW.user_id argsW.usage_key =
        Except.ok gfinal ∧
      gfinal.earned_all = argsW2.earned_all ∧
      gfinal.possible_all = argsW2.possible_all ∧
      gfinal.earned_graded = argsW2.earned_graded ∧
      gfinal.possible_graded = argsW2.possible_graded ∧
      gfinal.course_version = argsW2.course_version ∧
      gfinal.subtree_edited_date = argsW2.subtree_edited_date :=
  ⟨(saveGrade_update_then_create stEmpty argsW argsW2 false false false).1 (by decide),
   (saveGrade_update_then_create stWith argsW argsW2 true true false).2.1
     ⟨[], [gradeW], [raceMsg], 2⟩ PyError.integrityError (by decide) rfl,
   (saveGrade_update_then_create stEmpty argsW argsW2 false false false).2.2
     (by decide) (by decide) (by decide)⟩

set_option maxRecDepth 100000 in
/-- Claim C4 (counterexample): two sequential `create_from_blockrecords`
calls with value-equal Visibility Sets — enumerations of the same
two-record set, whose members share a locator — persist two Visibility
Store Entries rather than one, because the two enumerations canonicalize
and hash differently. -/
theorem create_duplicates_on_tied_locators :
    List.Perm [recTiedA, recTiedB] [recTiedB, recTiedA] ∧
    (create_from_blockrecords
      ((create_from_blockrecords stEmpty [recTiedA, recTiedB] false).1)
      [recTiedB, recTiedA] false).1.vbRows.length = 2 :=
  ⟨List.Perm.swap recTiedB recTiedA [], by decide⟩
